import Mathlib

/-!
# The retry engine of `isindir/poc`

The repository holds two programs that push uniquely named files to one branch
of a GitHub repository through the Git data API:

* `main.go`: the bounded policy, `pushWithRetry` (at most `maxRetries` attempts,
  then `log.Fatalf`);
* `cmd/unlimited.go`: the unlimited policy, `pushUntilSuccess` (loops until an
  attempt succeeds).

Both use the same attempt, `pushToMainBranch` (the two files hold the same text of
it): `GetRef`, `GetCommit`, `CreateTree`, `CreateCommit`, `UpdateRef`.

The GitHub client, the clock and the random source are outside the repository.
They are a parameter here: an `Env σ` gives, for a state `σ` of the outside world,
the answer of each call and the next state.  Everything the program does to the
outside world is written to a list of `Event`s, so that the number of attempts, the
order of the calls and the length of every sleep can be read from a run.
-/

namespace Poc

/-! ## Durations and constants -/

/-- A `time.Duration`: a count of nanoseconds held in an `int64`. -/
abbrev Duration := Int

/-- Go's `time.Millisecond`. -/
def Millisecond : Duration := 1000000

/-- Go's `time.Second`. -/
def Second : Duration := 1000000000

/-- Two's complement reduction of an integer to the `int64` range. -/
def wrapInt64 (x : Int) : Int :=
  (x + 9223372036854775808) % 18446744073709551616 - 9223372036854775808

/-- Largest `time.Duration`. -/
def maxDuration : Duration := 9223372036854775807

/-- Smallest `time.Duration`. -/
def minDuration : Duration := -9223372036854775808

/-- `main.go`: `const maxRetries = 5`. -/
def maxRetries : Nat := 5

/-- `main.go`: `const pushDelay = 2 * time.Second`. -/
def pushDelay : Duration := 2 * Second

/-- `cmd/unlimited.go`: `pushDelayMin = 50 * time.Millisecond`. -/
def pushDelayMin : Duration := 50 * Millisecond

/-- `cmd/unlimited.go`: `pushDelayMax = 5 * time.Second`. -/
def pushDelayMax : Duration := 5 * Second

/-! ## Errors -/

/-- The dynamic types of the `error` values the programs meet.  `rateLimitError` is
`*github.RateLimitError` with its `Rate.Reset` time (nanoseconds) and its message;
`errorString` is the `*errors.errorString` that `fmt.Errorf` builds from a format
without the wrapping verb; `other` is any other error of the client. -/
inductive GoError where
  | rateLimitError (reset : Int) (msg : String)
  | errorString (msg : String)
  | other (msg : String)
  deriving DecidableEq, Repr

/-- The method `Error()` of an error value. -/
def GoError.Error : GoError → String
  | .rateLimitError _ msg => msg
  | .errorString msg => msg
  | .other msg => msg

/-- `fmt.Errorf(pfx + "%v", err)`: the verb `%v` renders `err.Error()`; the result
is a fresh `*errors.errorString`, whatever the dynamic type of `err` was. -/
def Errorf (pfx : String) (err : GoError) : GoError :=
  .errorString (pfx ++ err.Error)

/-- The type assertion `err.(*github.RateLimitError)`: the reset time when the
dynamic type of `err` is `*github.RateLimitError`. -/
def asRateLimitError : GoError → Option Int
  | .rateLimitError reset _ => some reset
  | _ => none

/-! ## Objects of the Git data API

Fields that are pointers in `go-github` are `Option`s: `none` is `nil`. -/

/-- A `github.TreeEntry`. -/
structure TreeEntry where
  Path : Option String
  Mode : Option String
  Typ : Option String
  Content : Option String
  deriving DecidableEq, Repr

/-- A `github.Tree`. -/
structure Tree where
  SHA : Option String
  Entries : List TreeEntry
  deriving DecidableEq, Repr

/-- A `github.GitObject`. -/
structure GitObject where
  Typ : Option String
  SHA : Option String
  deriving DecidableEq, Repr

/-- A `github.Reference`. -/
structure Reference where
  Ref : Option String
  Object : Option GitObject
  deriving DecidableEq, Repr

/-- A `github.Commit`. -/
inductive Commit where
  | mk (sha : Option String) (message : Option String) (tree : Option Tree)
      (parents : List Commit)

/-- Field `SHA` of a commit. -/
def Commit.SHA : Commit → Option String
  | .mk sha _ _ _ => sha

/-- Field `Message` of a commit. -/
def Commit.Message : Commit → Option String
  | .mk _ message _ _ => message

/-- Field `Tree` of a commit. -/
def Commit.Tree : Commit → Option Tree
  | .mk _ _ tree _ => tree

/-- Field `Parents` of a commit. -/
def Commit.Parents : Commit → List Commit
  | .mk _ _ _ parents => parents

/-! ## The outside world -/

/-- The outside world of the programs over a state `σ`: the five calls of
`client.Git` (the context argument left out, it is `context.Background()`), the
clock, `time.Sleep`, and the raw draw of the random source. -/
structure Env (σ : Type) where
  GetRef : σ → String → String → String → Except GoError Reference × σ
  GetCommit : σ → String → String → String → Except GoError Commit × σ
  CreateTree : σ → String → String → String → List TreeEntry → Except GoError Tree × σ
  CreateCommit : σ → String → String → Commit → Except GoError Commit × σ
  UpdateRef : σ → String → String → Reference → Bool → Except GoError Reference × σ
  Now : σ → Int
  Sleep : σ → Duration → σ
  Rand : σ → Nat × σ

/-- A call of the Git data API with its arguments. -/
inductive Call where
  | GetRef (owner repo ref : String)
  | GetCommit (owner repo sha : String)
  | CreateTree (owner repo baseTree : String) (entries : List TreeEntry)
  | CreateCommit (owner repo : String) (commit : Commit)
  | UpdateRef (owner repo : String) (ref : Reference) (force : Bool)

/-- The five operations of the Git data API that `pushToMainBranch` uses. -/
inductive CallKind where
  | GetRef | GetCommit | CreateTree | CreateCommit | UpdateRef
  deriving DecidableEq, Repr

/-- Which operation a call is. -/
def Call.kind : Call → CallKind
  | .GetRef _ _ _ => .GetRef
  | .GetCommit _ _ _ => .GetCommit
  | .CreateTree _ _ _ _ => .CreateTree
  | .CreateCommit _ _ _ => .CreateCommit
  | .UpdateRef _ _ _ _ => .UpdateRef

/-- An argument of a formatted message. -/
inductive Arg where
  | str (s : String)
  | int (n : Int)
  | dur (d : Duration)
  | err (e : GoError)
  deriving DecidableEq, Repr

/-- What a program does to the outside world: a call of the client with the error
it came back with (`none` when it succeeded), a `time.Sleep`, and the three kinds
of output, each with its format string and arguments. -/
inductive Event where
  | call (c : Call) (failure : Option GoError)
  | sleep (d : Duration)
  | printf (format : String) (args : List Arg)
  | logPrintf (format : String) (args : List Arg)
  | logFatalf (format : String) (args : List Arg)

/-- How one `pushToMainBranch` ends: it returns `nil`, it returns an error, or it
dereferences a `nil` pointer of an answer and the process panics. -/
inductive AttemptResult where
  | nil
  | err (e : GoError)
  | panic
  deriving DecidableEq, Repr

/-! ## One attempt -/

/-- The body of `pushToMainBranch` (`main.go` lines 86-132 and `cmd/unlimited.go`
lines 99-145, the same text).  The result is how the attempt ends, the state of the
outside world afterwards and the calls made, in order. -/
def pushToMainBranch {σ : Type} (E : Env σ)
    (owner repo branch filePath content commitMessage : String) (s : σ) :
    AttemptResult × σ × List Event :=
  let c1 := Call.GetRef owner repo ("refs/heads/" ++ branch)
  match E.GetRef s owner repo ("refs/heads/" ++ branch) with
  | (.error err, s1) =>
    (.err (Errorf "error getting repository reference: " err), s1, [.call c1 (some err)])
  | (.ok ref, s1) =>
  -- `*ref.Object.SHA`
  match ref.Object with
  | none => (.panic, s1, [.call c1 none])
  | some obj =>
  match obj.SHA with
  | none => (.panic, s1, [.call c1 none])
  | some sha =>
  let c2 := Call.GetCommit owner repo sha
  match E.GetCommit s1 owner repo sha with
  | (.error err, s2) =>
    (.err (Errorf "error getting latest commit: " err), s2,
      [.call c1 none, .call c2 (some err)])
  | (.ok commit, s2) =>
  let treeEntries : List TreeEntry :=
    [{ Path := some filePath, Typ := some "blob", Content := some content,
       Mode := some "100644" }]
  -- `*commit.Tree.SHA`
  match commit.Tree with
  | none => (.panic, s2, [.call c1 none, .call c2 none])
  | some baseTree =>
  match baseTree.SHA with
  | none => (.panic, s2, [.call c1 none, .call c2 none])
  | some baseSHA =>
  let c3 := Call.CreateTree owner repo baseSHA treeEntries
  match E.CreateTree s2 owner repo baseSHA treeEntries with
  | (.error err, s3) =>
    (.err (Errorf "error creating tree: " err), s3,
      [.call c1 none, .call c2 none, .call c3 (some err)])
  | (.ok tree, s3) =>
  let newCommit := Commit.mk none (some commitMessage) (some tree) [commit]
  let c4 := Call.CreateCommit owner repo newCommit
  match E.CreateCommit s3 owner repo newCommit with
  | (.error err, s4) =>
    (.err (Errorf "error creating commit: " err), s4,
      [.call c1 none, .call c2 none, .call c3 none, .call c4 (some err)])
  | (.ok commitResponse, s4) =>
  -- `ref.Object.SHA = commitResponse.SHA`
  let ref2 : Reference := { ref with Object := some { obj with SHA := commitResponse.SHA } }
  let c5 := Call.UpdateRef owner repo ref2 false
  match E.UpdateRef s4 owner repo ref2 false with
  | (.error err, s5) =>
    (.err (Errorf "error updating ref: " err), s5,
      [.call c1 none, .call c2 none, .call c3 none, .call c4 none, .call c5 (some err)])
  | (.ok _, s5) =>
    (.nil, s5,
      [.call c1 none, .call c2 none, .call c3 none, .call c4 none, .call c5 none])

/-! ## The random source and the clock -/

/-- Go's `rand.Intn(n)`: it panics (`none`) when `n <= 0` and otherwise answers a
value of `[0, n)`, here the raw draw of the source reduced modulo `n`. -/
def Intn (n : Int) (raw : Nat) : Option Int :=
  if n ≤ 0 then none else some ((raw : Int) % n)

/-- Go's `rand.Int63n(n)`: as `Intn`, for an `int64` bound. -/
def Int63n (n : Int) (raw : Nat) : Option Int :=
  if n ≤ 0 then none else some ((raw : Int) % n)

/-- Go's `time.Until(t)`, that is `t.Sub(time.Now())`: the difference, kept within
the range of a `time.Duration`. -/
def Until (t now : Int) : Duration :=
  if t - now > maxDuration then maxDuration
  else if t - now < minDuration then minDuration
  else t - now

/-! ## The two retry loops -/

/-- How a publish function ends: it returns to its caller, `log.Fatalf` ends the
process, or the process panics. -/
inductive Termination where
  | returned
  | exited
  | panicked
  deriving DecidableEq, Repr

/-- Puts the events `ev` in front of the events of a run. -/
def emit {σ : Type} (ev : List Event) (r : Termination × σ × List Event) :
    Termination × σ × List Event :=
  (r.1, r.2.1, ev ++ r.2.2)

/-- What `cmd/unlimited.go` sleeps after a failure that is not a rate limit, from
the value `v` drawn by `rand.Int63n`: `time.Duration(v) + pushDelayMin`. -/
def uniformDelay (v : Int) : Duration :=
  wrapInt64 (v + pushDelayMin)

/-- What `main.go` sleeps before a retry, from the value `v` drawn by `rand.Intn`:
`pushDelay * time.Duration(v)`. -/
def linearDelay (v : Int) : Duration :=
  wrapInt64 (pushDelay * v)

/-- The block `if retries > 0 { ... }` of `pushWithRetry` (`main.go` lines 67-70):
the message, the draw of `rand.Intn(retries+1)` and the sleep.  The result is
whether the block ran to its end (`false`: `rand.Intn` panicked), the state
afterwards and the events. -/
def retryWait {σ : Type} (E : Env σ) (filePath : String) (retries : Nat) (s : σ) :
    Bool × σ × List Event :=
  if retries > 0 then
    let msg := Event.printf "Retrying push for file %s (attempt %d)...\n"
      [.str filePath, .int ((retries : Int) + 1)]
    match Intn ((retries : Int) + 1) (E.Rand s).1 with
    | none => (false, (E.Rand s).2, [msg])
    | some v => (true, E.Sleep (E.Rand s).2 (linearDelay v), [msg, .sleep (linearDelay v)])
  else
    (true, s, [])

/-- The loop of `pushWithRetry` (`main.go` lines 66-80) from the value `retries` of
its counter on, and the `log.Fatalf` after it (line 82). -/
def pushWithRetryLoop {σ : Type} (E : Env σ)
    (owner repo branch filePath content commitMessage : String) (retries : Nat) (s : σ) :
    Termination × σ × List Event :=
  if retries < maxRetries then
    match retryWait E filePath retries s with
    | (false, s0, pre) => (.panicked, s0, pre)
    | (true, s0, pre) =>
      match pushToMainBranch E owner repo branch filePath content commitMessage s0 with
      | (.nil, s1, ev) =>
        (.returned, s1, pre ++ ev ++
          [.printf "Successfully pushed file %s to the main branch!\n" [.str filePath]])
      | (.panic, s1, ev) => (.panicked, s1, pre ++ ev)
      | (.err err, s1, ev) =>
        emit (pre ++ ev ++ [.logPrintf "Error pushing file %s: %v" [.str filePath, .err err]])
          (pushWithRetryLoop E owner repo branch filePath content commitMessage
            (retries + 1) s1)
  else
    (.exited, s, [.logFatalf "Failed to push file %s after %d attempts"
      [.str filePath, .int maxRetries]])
termination_by maxRetries - retries

/-- The function `pushWithRetry` of `main.go`: the loop from `retries := 0`. -/
def pushWithRetry {σ : Type} (E : Env σ)
    (owner repo branch filePath content commitMessage : String) (s : σ) :
    Termination × σ × List Event :=
  pushWithRetryLoop E owner repo branch filePath content commitMessage 0 s

/-- The function `pushUntilSuccess` of `cmd/unlimited.go` (lines 71-96), run for at
most `fuel` iterations of its `for` loop; `none` when the loop is still running
after that many. -/
def pushUntilSuccess {σ : Type} (E : Env σ)
    (owner repo branch filePath content commitMessage : String) :
    Nat → σ → Option (Termination × σ × List Event)
  | 0, _ => none
  | fuel + 1, s =>
    match pushToMainBranch E owner repo branch filePath content commitMessage s with
    | (.nil, s1, ev) =>
      some (.returned, s1, ev ++
        [.printf "Successfully pushed file %s to the main branch!\n" [.str filePath]])
    | (.panic, s1, ev) => some (.panicked, s1, ev)
    | (.err err, s1, ev) =>
      match asRateLimitError err with
      | some reset =>
        let resetTime := Until reset (E.Now s1)
        (pushUntilSuccess E owner repo branch filePath content commitMessage fuel
            (E.Sleep s1 resetTime)).map
          (emit (ev ++
            [.printf "Rate limit exceeded. Waiting for %v before retrying...\n"
              [.dur resetTime], .sleep resetTime]))
      | none =>
        let msg := Event.logPrintf "Error pushing file %s: %v. Retrying..."
          [.str filePath, .err err]
        match Int63n (pushDelayMax - pushDelayMin) (E.Rand s1).1 with
        | none => some (.panicked, (E.Rand s1).2, ev ++ [msg])
        | some v =>
          let delay := uniformDelay v
          (pushUntilSuccess E owner repo branch filePath content commitMessage fuel
              (E.Sleep (E.Rand s1).2 delay)).map
            (emit (ev ++ [msg, .sleep delay]))

/-! ## The units of work -/

/-- `fmt.Sprintf("unique-file-%s.txt", fileID)` of both `main` functions. -/
def filePath (fileID : String) : String :=
  "unique-file-" ++ fileID ++ ".txt"

/-- `fmt.Sprintf("This is unique content for file %d with UUID %s", i, fileID)`. -/
def content (i : Int) (fileID : String) : String :=
  "This is unique content for file " ++ toString i ++ " with UUID " ++ fileID

/-- `fmt.Sprintf("Adding file %d with UUID %s", i, fileID)`. -/
def commitMessage (i : Int) (fileID : String) : String :=
  "Adding file " ++ toString i ++ " with UUID " ++ fileID

/-- What one goroutine of `main` passes to the publish function. -/
structure UnitOfWork where
  filePath : String
  content : String
  commitMessage : String
  deriving DecidableEq, Repr

/-- The unit of work of the goroutine with index `i` whose `uuid.New().String()`
is `fileID`. -/
def unitOfWork (i : Int) (fileID : String) : UnitOfWork :=
  { filePath := filePath fileID, content := content i fileID,
    commitMessage := commitMessage i fileID }

/-! ## Reading a run -/

/-- The order in which `pushToMainBranch` calls the client. -/
def callOrder : List CallKind :=
  [.GetRef, .GetCommit, .CreateTree, .CreateCommit, .UpdateRef]

/-- The operations called in a run, in order. -/
def callKinds : List Event → List CallKind
  | [] => []
  | .call c _ :: rest => c.kind :: callKinds rest
  | _ :: rest => callKinds rest

/-- The durations of the calls of `time.Sleep` in a run, in order. -/
def sleeps : List Event → List Duration
  | [] => []
  | .sleep d :: rest => d :: sleeps rest
  | _ :: rest => sleeps rest

/-- The number of attempts in a run: every `pushToMainBranch` calls `GetRef` once,
as its first call, so the attempts are the calls of `GetRef`. -/
def attempts (ev : List Event) : Nat :=
  (callKinds ev).count .GetRef

/-- Whether an event is a call that came back with an error. -/
def Event.failed : Event → Bool
  | .call _ (some _) => true
  | _ => false

/-- Whether an event is a call that came back without an error. -/
def Event.succeeded : Event → Bool
  | .call _ none => true
  | _ => false

/-- The error a call came back with, `none` when it succeeded. -/
def failureOf {α : Type} : Except GoError α → Option GoError
  | .error e => some e
  | .ok _ => none

/-- The number of calls of a run that came back with an error. -/
def failures (ev : List Event) : Nat :=
  (ev.filter Event.failed).length

/-! ## Outside worlds for the scenarios of the specification -/

/-- An outside world that simulates concurrent writers: under `ConflictScript E P`,
in a state with `P k` the ref update is rejected `k` more times and accepted after
that, while the other calls succeed with answers that have the fields
`pushToMainBranch` reads, and sleeping or drawing a random number changes none of
this. -/
structure ConflictScript {σ : Type} (E : Env σ) (P : Nat → σ → Prop) : Prop where
  getRef : ∀ k s owner repo ref, P k s →
    ∃ r obj sha s1, E.GetRef s owner repo ref = (.ok r, s1) ∧ r.Object = some obj
      ∧ obj.SHA = some sha ∧ P k s1
  getCommit : ∀ k s owner repo sha, P k s →
    ∃ c t tsha s1, E.GetCommit s owner repo sha = (.ok c, s1) ∧ c.Tree = some t
      ∧ t.SHA = some tsha ∧ P k s1
  createTree : ∀ k s owner repo base entries, P k s →
    ∃ t s1, E.CreateTree s owner repo base entries = (.ok t, s1) ∧ P k s1
  createCommit : ∀ k s owner repo c, P k s →
    ∃ r s1, E.CreateCommit s owner repo c = (.ok r, s1) ∧ P k s1
  updateRefConflict : ∀ k s owner repo ref force, P (k + 1) s →
    ∃ e s1, E.UpdateRef s owner repo ref force = (.error e, s1) ∧ P k s1
  updateRefSuccess : ∀ s owner repo ref force, P 0 s →
    ∃ r s1, E.UpdateRef s owner repo ref force = (.ok r, s1)
  sleep : ∀ k s d, P k s → P k (E.Sleep s d)
  rand : ∀ k s, P k s → P k (E.Rand s).2

/-- The state of a simulated outside world: the clock, the reset time the service
names when it limits the rate, how many more calls of `GetRef` it answers with a
rate limit, how many more ref updates it rejects, and the raw value its random
source draws. -/
structure Sim where
  now : Int
  reset : Int
  rateLimits : Nat
  conflicts : Nat
  raw : Nat
  deriving DecidableEq, Repr

/-- A simulated outside world over `Sim`. -/
def simEnv : Env Sim where
  GetRef s _ _ ref :=
    match s.rateLimits with
    | 0 => (.ok { Ref := some ref, Object := some { Typ := some "commit", SHA := some "tip" } }, s)
    | n + 1 =>
      (.error (.rateLimitError s.reset "API rate limit exceeded"), { s with rateLimits := n })
  GetCommit s _ _ sha :=
    (.ok (Commit.mk (some sha) (some "tip commit")
      (some { SHA := some "tiptree", Entries := [] }) []), s)
  CreateTree s _ _ _ entries := (.ok { SHA := some "newtree", Entries := entries }, s)
  CreateCommit s _ _ c := (.ok (Commit.mk (some "new") c.Message c.Tree c.Parents), s)
  UpdateRef s _ _ ref _ :=
    match s.conflicts with
    | 0 => (.ok ref, s)
    | n + 1 => (.error (.other "Update is not a fast forward"), { s with conflicts := n })
  Now s := s.now
  Sleep s d := if d > 0 then { s with now := s.now + d } else s
  Rand s := (s.raw, s)

/-- An outside world in which the service cannot be reached: every call fails with
the error `e`. -/
def downEnv (e : GoError) : Env Unit where
  GetRef s _ _ _ := (.error e, s)
  GetCommit s _ _ _ := (.error e, s)
  CreateTree s _ _ _ _ := (.error e, s)
  CreateCommit s _ _ _ := (.error e, s)
  UpdateRef s _ _ _ _ := (.error e, s)
  Now _ := 0
  Sleep s _ := s
  Rand s := (0, s)

/-- The states of `simEnv` in which the ref update is rejected `k` more times and
no rate limit is pending. -/
def simConflicts (k : Nat) (s : Sim) : Prop :=
  s.conflicts = k ∧ s.rateLimits = 0

/-- The sleeps of a run of `pushWithRetry` from attempt number `a` on: the sleep
before attempt `a` is `pushDelay * v` for a `v` of `[0, a)`, the next one is so for
`a + 1`, and so on. -/
def LinearSleeps : Int → List Duration → Prop
  | _, [] => True
  | a, d :: rest => (∃ v : Int, 0 ≤ v ∧ v < a ∧ d = pushDelay * v) ∧ LinearSleeps (a + 1) rest

/-! ## Lemmas on runs -/

section Lemmas

variable {σ : Type}

lemma callKinds_append (a b : List Event) :
    callKinds (a ++ b) = callKinds a ++ callKinds b := by
  induction a with
  | nil => rfl
  | cons e rest ih => cases e <;> simp [callKinds, ih]

lemma sleeps_append (a b : List Event) : sleeps (a ++ b) = sleeps a ++ sleeps b := by
  induction a with
  | nil => rfl
  | cons e rest ih => cases e <;> simp [sleeps, ih]

lemma attempts_append (a b : List Event) : attempts (a ++ b) = attempts a + attempts b := by
  simp [attempts, callKinds_append]

lemma failures_append (a b : List Event) : failures (a ++ b) = failures a + failures b := by
  simp [failures]

lemma attempts_pushToMainBranch (E : Env σ)
    (owner repo branch filePath content commitMessage : String) (s : σ) :
    attempts (pushToMainBranch E owner repo branch filePath content commitMessage s).2.2
      = 1 := by
  unfold pushToMainBranch
  simp only []
  repeat' split
  all_goals simp [attempts, callKinds, Call.kind]

lemma sleeps_pushToMainBranch (E : Env σ)
    (owner repo branch filePath content commitMessage : String) (s : σ) :
    sleeps (pushToMainBranch E owner repo branch filePath content commitMessage s).2.2
      = [] := by
  unfold pushToMainBranch
  simp only []
  repeat' split
  all_goals simp [sleeps]

/-- Whatever error the client answers, `pushToMainBranch` returns an
`*errors.errorString`: the type assertion to `*github.RateLimitError` fails on it. -/
lemma asRateLimitError_pushToMainBranch (E : Env σ)
    (owner repo branch filePath content commitMessage : String) (s : σ) (e : GoError)
    (h : (pushToMainBranch E owner repo branch filePath content commitMessage s).1
      = .err e) :
    asRateLimitError e = none := by
  revert h
  unfold pushToMainBranch
  simp only []
  repeat' split
  all_goals intro h
  all_goals simp [Errorf] at h
  all_goals subst h
  all_goals rfl

lemma retryWait_zero (E : Env σ) (filePath : String) (s : σ) :
    retryWait E filePath 0 s = (true, s, []) := by
  simp [retryWait]

lemma retryWait_pos (E : Env σ) (filePath : String) (retries : Nat) (s : σ)
    (h : 0 < retries) :
    retryWait E filePath retries s =
      (true, E.Sleep (E.Rand s).2 (linearDelay (((E.Rand s).1 : Int) % ((retries : Int) + 1))),
        [.printf "Retrying push for file %s (attempt %d)...\n"
            [.str filePath, .int ((retries : Int) + 1)],
         .sleep (linearDelay (((E.Rand s).1 : Int) % ((retries : Int) + 1)))]) := by
  have h1 : ¬ ((retries : Int) + 1 ≤ 0) := by omega
  simp [retryWait, h, Intn, h1]

lemma retryWait_fst (E : Env σ) (filePath : String) (retries : Nat) (s : σ) :
    (retryWait E filePath retries s).1 = true := by
  rcases Nat.eq_zero_or_pos retries with h | h
  · subst h; simp [retryWait_zero]
  · simp [retryWait_pos E filePath retries s h]

lemma pushWithRetryLoop_done (E : Env σ)
    (owner repo branch filePath content commitMessage : String) (retries : Nat) (s : σ)
    (h : ¬ retries < maxRetries) :
    pushWithRetryLoop E owner repo branch filePath content commitMessage retries s =
      (.exited, s, [.logFatalf "Failed to push file %s after %d attempts"
        [.str filePath, .int maxRetries]]) := by
  rw [pushWithRetryLoop, if_neg h]

lemma pushWithRetryLoop_err (E : Env σ)
    (owner repo branch filePath content commitMessage : String) (retries : Nat) (s : σ)
    (h : retries < maxRetries) (err : GoError)
    (he : (pushToMainBranch E owner repo branch filePath content commitMessage
      (retryWait E filePath retries s).2.1).1 = .err err) :
    pushWithRetryLoop E owner repo branch filePath content commitMessage retries s =
      emit ((retryWait E filePath retries s).2.2
          ++ (pushToMainBranch E owner repo branch filePath content commitMessage
                (retryWait E filePath retries s).2.1).2.2
          ++ [.logPrintf "Error pushing file %s: %v" [.str filePath, .err err]])
        (pushWithRetryLoop E owner repo branch filePath content commitMessage (retries + 1)
          (pushToMainBranch E owner repo branch filePath content commitMessage
            (retryWait E filePath retries s).2.1).2.1) := by
  rw [pushWithRetryLoop, if_pos h]
  have hw := retryWait_fst E filePath retries s
  rcases hr : retryWait E filePath retries s with ⟨b, s0, pre⟩
  rw [hr] at hw he
  simp only at hw he
  subst hw
  rcases hp : pushToMainBranch E owner repo branch filePath content commitMessage s0
    with ⟨r, s1, ev⟩
  rw [hp] at he
  simp only at he
  subst he
  simp only [hp]

lemma pushWithRetryLoop_nil (E : Env σ)
    (owner repo branch filePath content commitMessage : String) (retries : Nat) (s : σ)
    (h : retries < maxRetries)
    (he : (pushToMainBranch E owner repo branch filePath content commitMessage
      (retryWait E filePath retries s).2.1).1 = .nil) :
    pushWithRetryLoop E owner repo branch filePath content commitMessage retries s =
      (.returned,
        (pushToMainBranch E owner repo branch filePath content commitMessage
            (retryWait E filePath retries s).2.1).2.1,
        (retryWait E filePath retries s).2.2
          ++ (pushToMainBranch E owner repo branch filePath content commitMessage
                (retryWait E filePath retries s).2.1).2.2
          ++ [.printf "Successfully pushed file %s to the main branch!\n"
                [.str filePath]]) := by
  rw [pushWithRetryLoop, if_pos h]
  have hw := retryWait_fst E filePath retries s
  rcases hr : retryWait E filePath retries s with ⟨b, s0, pre⟩
  rw [hr] at hw he
  simp only at hw he
  subst hw
  rcases hp : pushToMainBranch E owner repo branch filePath content commitMessage s0
    with ⟨r, s1, ev⟩
  rw [hp] at he
  simp only at he
  subst he
  simp only [hp]

lemma pushWithRetryLoop_panic (E : Env σ)
    (owner repo branch filePath content commitMessage : String) (retries : Nat) (s : σ)
    (h : retries < maxRetries)
    (he : (pushToMainBranch E owner repo branch filePath content commitMessage
      (retryWait E filePath retries s).2.1).1 = .panic) :
    pushWithRetryLoop E owner repo branch filePath content commitMessage retries s =
      (.panicked,
        (pushToMainBranch E owner repo branch filePath content commitMessage
            (retryWait E filePath retries s).2.1).2.1,
        (retryWait E filePath retries s).2.2
          ++ (pushToMainBranch E owner repo branch filePath content commitMessage
                (retryWait E filePath retries s).2.1).2.2) := by
  rw [pushWithRetryLoop, if_pos h]
  have hw := retryWait_fst E filePath retries s
  rcases hr : retryWait E filePath retries s with ⟨b, s0, pre⟩
  rw [hr] at hw he
  simp only at hw he
  subst hw
  rcases hp : pushToMainBranch E owner repo branch filePath content commitMessage s0
    with ⟨r, s1, ev⟩
  rw [hp] at he
  simp only at he
  subst he
  simp only [hp]

lemma attempts_retryWait (E : Env σ) (filePath : String) (retries : Nat) (s : σ) :
    attempts (retryWait E filePath retries s).2.2 = 0 := by
  rcases Nat.eq_zero_or_pos retries with h | h
  · subst h; simp [retryWait_zero, attempts, callKinds]
  · simp [retryWait_pos E filePath retries s h, attempts, callKinds]

lemma callKinds_retryWait (E : Env σ) (filePath : String) (retries : Nat) (s : σ) :
    callKinds (retryWait E filePath retries s).2.2 = [] := by
  rcases Nat.eq_zero_or_pos retries with h | h
  · subst h; simp [retryWait_zero, callKinds]
  · simp [retryWait_pos E filePath retries s h, callKinds]

lemma failures_retryWait (E : Env σ) (filePath : String) (retries : Nat) (s : σ) :
    failures (retryWait E filePath retries s).2.2 = 0 := by
  rcases Nat.eq_zero_or_pos retries with h | h
  · subst h; simp [retryWait_zero, failures]
  · simp [retryWait_pos E filePath retries s h, failures, Event.failed]

/-- When every attempt fails, the loop of `pushWithRetry` entered with `k` iterations
left makes `k` attempts and ends in `log.Fatalf`. -/
lemma pushWithRetryLoop_exhaustion (E : Env σ)
    (owner repo branch filePath content commitMessage : String)
    (h : ∀ s, ∃ e, (pushToMainBranch E owner repo branch filePath content
      commitMessage s).1 = .err e) :
    ∀ (k retries : Nat) (s : σ), retries + k = maxRetries →
      ∃ s1 ev, pushWithRetryLoop E owner repo branch filePath content commitMessage
          retries s = (.exited, s1, ev)
        ∧ attempts ev = k
        ∧ ev.getLast? = some (.logFatalf "Failed to push file %s after %d attempts"
            [.str filePath, .int maxRetries]) := by
  intro k
  induction k with
  | zero =>
    intro retries s hk
    refine ⟨s, _, pushWithRetryLoop_done E owner repo branch filePath content commitMessage
      retries s (by omega), ?_, ?_⟩
    · simp [attempts, callKinds]
    · simp
  | succ k ih =>
    intro retries s hk
    obtain ⟨e, he⟩ := h (retryWait E filePath retries s).2.1
    obtain ⟨s1, ev, hrun, hatt, hlast⟩ := ih (retries + 1)
      (pushToMainBranch E owner repo branch filePath content commitMessage
        (retryWait E filePath retries s).2.1).2.1 (by omega)
    rw [pushWithRetryLoop_err E owner repo branch filePath content commitMessage retries s
      (by omega) e he, hrun]
    refine ⟨s1, _, rfl, ?_, ?_⟩
    · simp only [attempts_append, attempts_retryWait, attempts_pushToMainBranch, hatt]
      simp [attempts, callKinds]
      omega
    · have hne : ev ≠ [] := by
        intro h0
        rw [h0] at hlast
        simp at hlast
      rw [List.getLast?_append_of_ne_nil _ hne]
      exact hlast

/-- Under a conflict script with rejections left, an attempt makes the five calls
and returns the error of the ref update. -/
lemma pushToMainBranch_conflict (E : Env σ) (P : Nat → σ → Prop) (hS : ConflictScript E P)
    (owner repo branch filePath content commitMessage : String) (k : Nat) (s : σ)
    (hP : P (k + 1) s) :
    ∃ e s1 ev, pushToMainBranch E owner repo branch filePath content commitMessage s
        = (.err e, s1, ev)
      ∧ callKinds ev = callOrder ∧ failures ev = 1 ∧ P k s1 := by
  obtain ⟨r, obj, sha, s1, h1, h1o, h1s, hP1⟩ :=
    hS.getRef (k + 1) s owner repo ("refs/heads/" ++ branch) hP
  obtain ⟨c, t, tsha, s2, h2, h2t, h2s, hP2⟩ := hS.getCommit (k + 1) s1 owner repo sha hP1
  obtain ⟨tr, s3, h3, hP3⟩ := hS.createTree (k + 1) s2 owner repo tsha
    [{ Path := some filePath, Typ := some "blob", Content := some content,
       Mode := some "100644" }] hP2
  obtain ⟨cr, s4, h4, hP4⟩ := hS.createCommit (k + 1) s3 owner repo
    (Commit.mk none (some commitMessage) (some tr) [c]) hP3
  obtain ⟨e, s5, h5, hP5⟩ := hS.updateRefConflict k s4 owner repo
    { r with Object := some { obj with SHA := cr.SHA } } false hP4
  have hpush : ∃ ev, pushToMainBranch E owner repo branch filePath content commitMessage s
      = (.err (Errorf "error updating ref: " e), s5, ev)
      ∧ callKinds ev = callOrder ∧ failures ev = 1 := by
    unfold pushToMainBranch
    simp only [h1, h1o, h1s, h2, h2t, h2s, h3, h4, h5]
    exact ⟨_, rfl, by simp [callKinds, callOrder, Call.kind], by simp [failures, Event.failed]⟩
  obtain ⟨ev, hp, hk, hf⟩ := hpush
  exact ⟨_, s5, ev, hp, hk, hf, hP5⟩

/-- Under a conflict script with no rejection left, an attempt makes the five calls
and returns `nil`. -/
lemma pushToMainBranch_converged (E : Env σ) (P : Nat → σ → Prop) (hS : ConflictScript E P)
    (owner repo branch filePath content commitMessage : String) (s : σ) (hP : P 0 s) :
    ∃ s1 ev, pushToMainBranch E owner repo branch filePath content commitMessage s
        = (.nil, s1, ev)
      ∧ callKinds ev = callOrder ∧ failures ev = 0 := by
  obtain ⟨r, obj, sha, s1, h1, h1o, h1s, hP1⟩ :=
    hS.getRef 0 s owner repo ("refs/heads/" ++ branch) hP
  obtain ⟨c, t, tsha, s2, h2, h2t, h2s, hP2⟩ := hS.getCommit 0 s1 owner repo sha hP1
  obtain ⟨tr, s3, h3, hP3⟩ := hS.createTree 0 s2 owner repo tsha
    [{ Path := some filePath, Typ := some "blob", Content := some content,
       Mode := some "100644" }] hP2
  obtain ⟨cr, s4, h4, hP4⟩ := hS.createCommit 0 s3 owner repo
    (Commit.mk none (some commitMessage) (some tr) [c]) hP3
  obtain ⟨u, s5, h5⟩ := hS.updateRefSuccess s4 owner repo
    { r with Object := some { obj with SHA := cr.SHA } } false hP4
  have hpush : ∃ ev, pushToMainBranch E owner repo branch filePath content commitMessage s
      = (.nil, s5, ev) ∧ callKinds ev = callOrder ∧ failures ev = 0 := by
    unfold pushToMainBranch
    simp only [h1, h1o, h1s, h2, h2t, h2s, h3, h4, h5]
    exact ⟨_, rfl, by simp [callKinds, callOrder, Call.kind], by simp [failures, Event.failed]⟩
  obtain ⟨ev, hp, hk, hf⟩ := hpush
  exact ⟨s5, ev, hp, hk, hf⟩

lemma retryWait_script (E : Env σ) (P : Nat → σ → Prop) (hS : ConflictScript E P)
    (filePath : String) (retries k : Nat) (s : σ) (hP : P k s) :
    P k (retryWait E filePath retries s).2.1 := by
  rcases Nat.eq_zero_or_pos retries with h | h
  · subst h; simpa [retryWait_zero] using hP
  · rw [retryWait_pos E filePath retries s h]
    exact hS.sleep _ _ _ (hS.rand _ _ hP)

/-- Bounded policy under a conflict script: with `k` rejections left and more than
`k` iterations left, the loop returns after `k + 1` attempts. -/
lemma pushWithRetryLoop_convergence (E : Env σ) (P : Nat → σ → Prop)
    (hS : ConflictScript E P)
    (owner repo branch filePath content commitMessage : String) :
    ∀ (k retries : Nat) (s : σ), P k s → retries + k < maxRetries →
      ∃ s1 ev, pushWithRetryLoop E owner repo branch filePath content commitMessage
          retries s = (.returned, s1, ev)
        ∧ callKinds ev = (List.replicate (k + 1) callOrder).flatten
        ∧ failures ev = k
        ∧ ev.getLast? = some
            (.printf "Successfully pushed file %s to the main branch!\n" [.str filePath]) := by
  intro k
  induction k with
  | zero =>
    intro retries s hP hk
    obtain ⟨s1, ev, hpush, hkinds, hfail⟩ := pushToMainBranch_converged E P hS owner repo
      branch filePath content commitMessage _ (retryWait_script E P hS filePath retries 0 s hP)
    rw [pushWithRetryLoop_nil E owner repo branch filePath content commitMessage retries s
      (by omega) (by rw [hpush])]
    refine ⟨_, _, rfl, ?_, ?_, ?_⟩
    · simp [callKinds_append, callKinds_retryWait, hpush, hkinds, callKinds]
    · simp only [failures_append, failures_retryWait, hpush, hfail]
      simp [failures, Event.failed]
    · simp
  | succ k ih =>
    intro retries s hP hk
    obtain ⟨e, s1, ev, hpush, hkinds, hfail, hP1⟩ := pushToMainBranch_conflict E P hS owner
      repo branch filePath content commitMessage k _
      (retryWait_script E P hS filePath retries (k + 1) s hP)
    obtain ⟨s2, ev2, hrun, hkinds2, hfail2, hlast⟩ := ih (retries + 1) s1 hP1 (by omega)
    rw [pushWithRetryLoop_err E owner repo branch filePath content commitMessage retries s
      (by omega) e (by rw [hpush]), hpush]
    simp only [hrun]
    refine ⟨_, _, rfl, ?_, ?_, ?_⟩
    · simp [callKinds_append, callKinds_retryWait, hkinds, hkinds2, callKinds,
        List.replicate_succ]
    · simp only [failures_append, failures_retryWait, hfail, hfail2]
      simp [failures, Event.failed]
      omega
    · have hne : ev2 ≠ [] := by
        intro h0
        rw [h0] at hlast
        simp at hlast
      rw [List.getLast?_append_of_ne_nil _ hne]
      exact hlast

/-- Unlimited policy under a conflict script: with `k` rejections left and more than
`k` iterations of fuel, the loop returns after `k + 1` attempts. -/
lemma pushUntilSuccess_convergence (E : Env σ) (P : Nat → σ → Prop)
    (hS : ConflictScript E P)
    (owner repo branch filePath content commitMessage : String) :
    ∀ (k fuel : Nat) (s : σ), P k s → k + 1 ≤ fuel →
      ∃ s1 ev, pushUntilSuccess E owner repo branch filePath content commitMessage
          fuel s = some (.returned, s1, ev)
        ∧ callKinds ev = (List.replicate (k + 1) callOrder).flatten
        ∧ failures ev = k
        ∧ ev.getLast? = some
            (.printf "Successfully pushed file %s to the main branch!\n" [.str filePath]) := by
  intro k
  induction k with
  | zero =>
    intro fuel s hP hk
    obtain ⟨fuel, rfl⟩ : ∃ n, fuel = n + 1 := ⟨fuel - 1, by omega⟩
    obtain ⟨s1, ev, hpush, hkinds, hfail⟩ := pushToMainBranch_converged E P hS owner repo
      branch filePath content commitMessage s hP
    have hrun : pushUntilSuccess E owner repo branch filePath content commitMessage
        (fuel + 1) s = some (.returned, s1, ev ++
          [.printf "Successfully pushed file %s to the main branch!\n" [.str filePath]]) := by
      rw [pushUntilSuccess, hpush]
    refine ⟨s1, _, hrun, ?_, ?_, ?_⟩
    · simp [callKinds_append, hkinds, callKinds]
    · simp only [failures_append, hfail]
      simp [failures, Event.failed]
    · simp
  | succ k ih =>
    intro fuel s hP hk
    obtain ⟨fuel, rfl⟩ : ∃ n, fuel = n + 1 := ⟨fuel - 1, by omega⟩
    obtain ⟨e, s1, ev, hpush, hkinds, hfail, hP1⟩ := pushToMainBranch_conflict E P hS owner
      repo branch filePath content commitMessage k s hP
    have hrl : asRateLimitError e = none :=
      asRateLimitError_pushToMainBranch E owner repo branch filePath content commitMessage s e
        (by rw [hpush])
    have hpos : ¬ (pushDelayMax - pushDelayMin ≤ 0) := by
      simp [pushDelayMax, pushDelayMin, Second, Millisecond]
    obtain ⟨s2, ev2, hrun, hkinds2, hfail2, hlast⟩ := ih fuel
      (E.Sleep (E.Rand s1).2
        (uniformDelay (((E.Rand s1).1 : Int) % (pushDelayMax - pushDelayMin))))
      (hS.sleep _ _ _ (hS.rand _ _ hP1)) (by omega)
    have hrun2 : pushUntilSuccess E owner repo branch filePath content commitMessage
        (fuel + 1) s = some (.returned, s2, (ev ++
          [.logPrintf "Error pushing file %s: %v. Retrying..." [.str filePath, .err e],
           .sleep (uniformDelay (((E.Rand s1).1 : Int) % (pushDelayMax - pushDelayMin)))])
          ++ ev2) := by
      rw [pushUntilSuccess, hpush]
      simp only [hrl, Int63n, if_neg hpos, hrun, Option.map_some', emit]
    refine ⟨s2, _, hrun2, ?_, ?_, ?_⟩
    · simp [callKinds_append, hkinds, hkinds2, callKinds, List.replicate_succ]
    · simp only [failures_append, hfail, hfail2]
      simp [failures, Event.failed]
      omega
    · have hne : ev2 ≠ [] := by
        intro h0
        rw [h0] at hlast
        simp at hlast
      rw [List.getLast?_append_of_ne_nil _ hne]
      exact hlast

lemma attempts_of_callKinds (ev : List Event) (n : Nat)
    (h : callKinds ev = (List.replicate n callOrder).flatten) : attempts ev = n := by
  unfold attempts
  rw [h]
  clear h
  induction n with
  | zero => simp
  | succ n ih =>
    rw [List.replicate_succ, List.flatten_cons, List.count_append, ih]
    simp [callOrder, List.count_cons]
    omega

lemma simEnv_conflictScript : ConflictScript simEnv simConflicts where
  getRef := by
    intro k s owner repo ref h
    obtain ⟨h1, h2⟩ := h
    exact ⟨{ Ref := some ref, Object := some { Typ := some "commit", SHA := some "tip" } },
      { Typ := some "commit", SHA := some "tip" }, "tip", s, by simp [simEnv, h2], rfl, rfl,
      h1, h2⟩
  getCommit := by
    intro k s owner repo sha h
    exact ⟨_, _, _, s, rfl, rfl, rfl, h⟩
  createTree := by
    intro k s owner repo base entries h
    exact ⟨_, s, rfl, h⟩
  createCommit := by
    intro k s owner repo c h
    exact ⟨_, s, rfl, h⟩
  updateRefConflict := by
    intro k s owner repo ref force h
    obtain ⟨h1, h2⟩ := h
    exact ⟨.other "Update is not a fast forward", { s with conflicts := k },
      by simp [simEnv, h1], rfl, h2⟩
  updateRefSuccess := by
    intro s owner repo ref force h
    obtain ⟨h1, h2⟩ := h
    exact ⟨ref, s, by simp [simEnv, h1]⟩
  sleep := by
    intro k s d h
    obtain ⟨h1, h2⟩ := h
    by_cases hd : d > 0
    · simp [simEnv, simConflicts, hd, h1, h2]
    · simp [simEnv, simConflicts, hd, h1, h2]
  rand := by
    intro k s h
    exact h

lemma linearDelay_eq (v : Int) (h0 : 0 ≤ v) (h1 : v ≤ 5) : linearDelay v = pushDelay * v := by
  unfold linearDelay wrapInt64 pushDelay Second
  have h2 : (2 * 1000000000 * v : Int) = 2000000000 * v := by ring
  simp only [Duration] at *
  rw [h2]
  omega

lemma sleeps_retryWait_pos (E : Env σ) (filePath : String) (retries : Nat) (s : σ)
    (h : 0 < retries) (h5 : retries < maxRetries) :
    ∃ v : Int, 0 ≤ v ∧ v < (retries : Int) + 1
      ∧ sleeps (retryWait E filePath retries s).2.2 = [pushDelay * v] := by
  have hlt : (retries : Int) + 1 ≤ 5 := by
    have : retries < 5 := h5
    omega
  have hpos : (0 : Int) < (retries : Int) + 1 := by omega
  have hv0 := Int.emod_nonneg ((E.Rand s).1 : Int) (ne_of_gt hpos)
  have hv1 := Int.emod_lt_of_pos ((E.Rand s).1 : Int) hpos
  refine ⟨((E.Rand s).1 : Int) % ((retries : Int) + 1), hv0, hv1, ?_⟩
  rw [retryWait_pos E filePath retries s h]
  simp only [sleeps]
  rw [linearDelay_eq _ hv0 (by omega)]

/-- From an iteration after the first on, every iteration of the loop of
`pushWithRetry` sleeps once and makes one attempt, and the sleep is the linear
delay of that attempt. -/
lemma pushWithRetryLoop_sleeps (E : Env σ)
    (owner repo branch filePath content commitMessage : String) :
    ∀ (k retries : Nat) (s : σ), retries + k = maxRetries → 0 < retries →
      LinearSleeps ((retries : Int) + 1)
          (sleeps (pushWithRetryLoop E owner repo branch filePath content commitMessage
            retries s).2.2)
        ∧ (sleeps (pushWithRetryLoop E owner repo branch filePath content commitMessage
            retries s).2.2).length
          = attempts (pushWithRetryLoop E owner repo branch filePath content commitMessage
            retries s).2.2 := by
  intro k
  induction k with
  | zero =>
    intro retries s hk hpos
    rw [pushWithRetryLoop_done E owner repo branch filePath content commitMessage retries s
      (by omega)]
    simp [sleeps, LinearSleeps, attempts, callKinds]
  | succ k ih =>
    intro retries s hk hpos
    obtain ⟨v, hv0, hv1, hsl⟩ := sleeps_retryWait_pos E filePath retries s hpos (by omega)
    have hatt := attempts_pushToMainBranch E owner repo branch filePath content commitMessage
      (retryWait E filePath retries s).2.1
    have hslp := sleeps_pushToMainBranch E owner repo branch filePath content commitMessage
      (retryWait E filePath retries s).2.1
    rcases hres : (pushToMainBranch E owner repo branch filePath content commitMessage
      (retryWait E filePath retries s).2.1).1 with _ | e | _
    · rw [pushWithRetryLoop_nil E owner repo branch filePath content commitMessage retries s
        (by omega) hres]
      simp only [sleeps_append, attempts_append, hsl, hslp, hatt, attempts_retryWait]
      simp only [sleeps, attempts, callKinds, LinearSleeps]
      exact ⟨⟨⟨v, hv0, hv1, rfl⟩, trivial⟩, by simp⟩
    · obtain ⟨ih1, ih2⟩ := ih (retries + 1)
        (pushToMainBranch E owner repo branch filePath content commitMessage
          (retryWait E filePath retries s).2.1).2.1 (by omega) (by omega)
      rw [pushWithRetryLoop_err E owner repo branch filePath content commitMessage retries s
        (by omega) e hres]
      simp only [emit, sleeps_append, attempts_append, hsl, hslp, hatt, attempts_retryWait]
      simp only [sleeps, attempts, callKinds, LinearSleeps]
      refine ⟨⟨⟨v, hv0, hv1, rfl⟩, ?_⟩, ?_⟩
      · simpa using ih1
      · simp only [attempts] at ih2
        simp [ih2]
        omega
    · rw [pushWithRetryLoop_panic E owner repo branch filePath content commitMessage retries
        s (by omega) hres]
      simp only [sleeps_append, attempts_append, hsl, hslp, hatt, attempts_retryWait]
      simp only [sleeps, attempts, callKinds, LinearSleeps]
      exact ⟨⟨⟨v, hv0, hv1, rfl⟩, trivial⟩, by simp⟩

lemma pushToMainBranch_first_event (E : Env σ)
    (owner repo branch filePath content commitMessage : String) (s : σ) :
    ∃ f rest, (pushToMainBranch E owner repo branch filePath content commitMessage s).2.2
      = .call (.GetRef owner repo ("refs/heads/" ++ branch)) f :: rest := by
  unfold pushToMainBranch
  simp only []
  repeat' split
  all_goals exact ⟨_, _, rfl⟩

lemma filePath_injective (a b : String) (h : filePath a = filePath b) : a = b := by
  have h1 := congrArg String.data h
  simp only [filePath, String.data_append] at h1
  exact String.ext (List.append_cancel_left (List.append_cancel_right h1))

lemma uniformDelay_eq (v : Int) (h0 : 0 ≤ v) (h1 : v < pushDelayMax - pushDelayMin) :
    uniformDelay v = v + pushDelayMin
      ∧ 50000000 ≤ v + pushDelayMin ∧ v + pushDelayMin < 5000000000 := by
  have e1 : pushDelayMax - pushDelayMin = 4950000000 := by
    simp [pushDelayMax, pushDelayMin, Second, Millisecond]
  have e2 : pushDelayMin = 50000000 := by simp [pushDelayMin, Millisecond]
  rw [e1] at h1
  unfold uniformDelay wrapInt64
  rw [e2]
  simp only [Duration] at *
  omega

/-- One iteration of `pushUntilSuccess` whose attempt fails: the loop logs the error,
sleeps the uniform delay of the draw and goes on with the next iteration. -/
lemma pushUntilSuccess_err (E : Env σ)
    (owner repo branch filePath content commitMessage : String) (fuel : Nat) (s : σ)
    (e : GoError) (s1 : σ) (ev : List Event)
    (hfail : pushToMainBranch E owner repo branch filePath content commitMessage s
      = (.err e, s1, ev)) :
    pushUntilSuccess E owner repo branch filePath content commitMessage (fuel + 1) s =
      (pushUntilSuccess E owner repo branch filePath content commitMessage fuel
        (E.Sleep (E.Rand s1).2
          (((E.Rand s1).1 : Int) % (pushDelayMax - pushDelayMin) + pushDelayMin))).map
        (emit (ev ++
          [.logPrintf "Error pushing file %s: %v. Retrying..." [.str filePath, .err e],
           .sleep (((E.Rand s1).1 : Int) % (pushDelayMax - pushDelayMin) + pushDelayMin)])) := by
  have hrl : asRateLimitError e = none :=
    asRateLimitError_pushToMainBranch E owner repo branch filePath content commitMessage s e
      (by rw [hfail])
  have hpos : (0 : Int) < pushDelayMax - pushDelayMin := by
    simp [pushDelayMax, pushDelayMin, Second, Millisecond]
  have hd := (uniformDelay_eq (((E.Rand s1).1 : Int) % (pushDelayMax - pushDelayMin))
    (Int.emod_nonneg _ (ne_of_gt hpos)) (Int.emod_lt_of_pos _ hpos)).1
  rw [pushUntilSuccess, hfail]
  simp only [hrl, Int63n, if_neg (not_le.mpr hpos), hd]

/-- An iteration of the loop of `pushWithRetry` after the first: the retry message,
one sleep of the linear delay of the draw, then the attempt made in the state after
the sleep. -/
lemma pushWithRetryLoop_begin (E : Env σ)
    (owner repo branch filePath content commitMessage : String) (retries : Nat) (s : σ)
    (h0 : 0 < retries) (h : retries < maxRetries) :
    ∃ t s2 tail, pushWithRetryLoop E owner repo branch filePath content commitMessage
        retries s =
      (t, s2,
        [.printf "Retrying push for file %s (attempt %d)...\n"
            [.str filePath, .int ((retries : Int) + 1)],
         .sleep (pushDelay * (((E.Rand s).1 : Int) % ((retries : Int) + 1)))]
        ++ (pushToMainBranch E owner repo branch filePath content commitMessage
            (E.Sleep (E.Rand s).2
              (pushDelay * (((E.Rand s).1 : Int) % ((retries : Int) + 1))))).2.2
        ++ tail) := by
  have hpos : (0 : Int) < (retries : Int) + 1 := by omega
  have h5 : (retries : Int) + 1 ≤ 5 := by
    have : retries < 5 := h
    omega
  have hd := linearDelay_eq (((E.Rand s).1 : Int) % ((retries : Int) + 1))
    (Int.emod_nonneg _ (ne_of_gt hpos))
    (le_trans (le_of_lt (Int.emod_lt_of_pos _ hpos)) h5)
  have hw := retryWait_pos E filePath retries s h0
  rw [hd] at hw
  rcases hres : (pushToMainBranch E owner repo branch filePath content commitMessage
    (retryWait E filePath retries s).2.1).1 with _ | e | _
  · rw [pushWithRetryLoop_nil E owner repo branch filePath content commitMessage retries s
      h hres]
    simp only [hw]
    exact ⟨_, _, _, rfl⟩
  · rw [pushWithRetryLoop_err E owner repo branch filePath content commitMessage retries s
      h e hres]
    simp only [hw, emit, List.append_assoc]
    exact ⟨_, _, _, rfl⟩
  · rw [pushWithRetryLoop_panic E owner repo branch filePath content commitMessage retries s
      h hres]
    simp only [hw]
    exact ⟨_, _, [], by rw [List.append_nil]⟩

/-- The first iteration of the loop of `pushWithRetry` begins with the attempt made in
the initial state. -/
lemma pushWithRetryLoop_first (E : Env σ)
    (owner repo branch filePath content commitMessage : String) (s : σ) :
    ∃ t s2 tail, pushWithRetryLoop E owner repo branch filePath content commitMessage 0 s =
      (t, s2,
        (pushToMainBranch E owner repo branch filePath content commitMessage s).2.2
          ++ tail) := by
  have hw := retryWait_zero E filePath s
  rcases hres : (pushToMainBranch E owner repo branch filePath content commitMessage
    (retryWait E filePath 0 s).2.1).1 with _ | e | _
  · rw [pushWithRetryLoop_nil E owner repo branch filePath content commitMessage 0 s
      (by decide) hres]
    simp only [hw, List.nil_append]
    exact ⟨_, _, _, rfl⟩
  · rw [pushWithRetryLoop_err E owner repo branch filePath content commitMessage 0 s
      (by decide) e hres]
    simp only [hw, emit, List.nil_append, List.append_assoc]
    exact ⟨_, _, _, rfl⟩
  · rw [pushWithRetryLoop_panic E owner repo branch filePath content commitMessage 0 s
      (by decide) hres]
    simp only [hw, List.nil_append]
    exact ⟨_, _, [], by rw [List.append_nil]⟩

/-- In every run of `pushWithRetry` the sleep before attempt `a` is `pushDelay * v` for a
`v` of `[0, a)`, and there is one sleep less than there are attempts. -/
lemma pushWithRetry_linearSleeps (E : Env σ)
    (owner repo branch filePath content commitMessage : String) (s : σ) :
    LinearSleeps 2
        (sleeps (pushWithRetry E owner repo branch filePath content commitMessage s).2.2)
    ∧ (sleeps (pushWithRetry E owner repo branch filePath content commitMessage s).2.2).length
        + 1
      = attempts (pushWithRetry E owner repo branch filePath content commitMessage s).2.2 := by
  have hatt := attempts_pushToMainBranch E owner repo branch filePath content commitMessage s
  have hslp := sleeps_pushToMainBranch E owner repo branch filePath content commitMessage s
  have hw := retryWait_zero E filePath s
  unfold pushWithRetry
  rcases hres : (pushToMainBranch E owner repo branch filePath content commitMessage
    (retryWait E filePath 0 s).2.1).1 with _ | e | _
  · rw [pushWithRetryLoop_nil E owner repo branch filePath content commitMessage 0 s
      (by decide) hres]
    simp only [hw, sleeps_append, attempts_append, hslp, hatt]
    simp [sleeps, attempts, callKinds, LinearSleeps]
  · obtain ⟨ih1, ih2⟩ := pushWithRetryLoop_sleeps E owner repo branch filePath content
      commitMessage 4 1
      (pushToMainBranch E owner repo branch filePath content commitMessage
        (retryWait E filePath 0 s).2.1).2.1 rfl (by decide)
    rw [pushWithRetryLoop_err E owner repo branch filePath content commitMessage 0 s
      (by decide) e hres]
    simp only [hw] at ih1 ih2 ⊢
    simp only [emit, sleeps_append, attempts_append, hslp, hatt]
    simp only [sleeps, attempts, callKinds, List.nil_append, List.append_nil]
    refine ⟨by simpa using ih1, ?_⟩
    simp only [attempts] at ih2
    simp [ih2]
    omega
  · rw [pushWithRetryLoop_panic E owner repo branch filePath content commitMessage 0 s
      (by decide) hres]
    simp only [hw, sleeps_append, attempts_append, hslp, hatt]
    simp [sleeps, attempts, callKinds, LinearSleeps]

end Lemmas

/-! ## The claims -/

/-- C1.  Bounded exhaustion.  When every attempt of `pushToMainBranch` ends with an
error, whatever error the outside world answers (a rate limit like any other),
`pushWithRetry` makes exactly `5` attempts and then ends the process in
`log.Fatalf`, whose message names the file and the count `5`, as the last thing it
does: it does not return. -/
theorem pushWithRetry_bounded_exhaustion {σ : Type} (E : Env σ)
    (owner repo branch filePath content commitMessage : String) (s : σ)
    (h : ∀ s, ∃ e, (pushToMainBranch E owner repo branch filePath content
      commitMessage s).1 = .err e) :
    ∃ s1 ev, pushWithRetry E owner repo branch filePath content commitMessage s
        = (.exited, s1, ev)
      ∧ attempts ev = 5
      ∧ ev.getLast? = some (.logFatalf "Failed to push file %s after %d attempts"
          [.str filePath, .int 5]) :=
  pushWithRetryLoop_exhaustion E owner repo branch filePath content commitMessage h 5 0 s rfl

/-- Witness of C1: a service that answers every call with a rate limit. -/
theorem pushWithRetry_bounded_exhaustion_witness :
    (∀ s, ∃ e, (pushToMainBranch
        (downEnv (.rateLimitError 60000000000 "API rate limit exceeded"))
        "isindir" "poc" "master" (filePath "id") (content 0 "id") (commitMessage 0 "id")
        s).1 = .err e)
    ∧ ∃ s1 ev, pushWithRetry
          (downEnv (.rateLimitError 60000000000 "API rate limit exceeded"))
          "isindir" "poc" "master" (filePath "id") (content 0 "id") (commitMessage 0 "id")
          () = (.exited, s1, ev)
        ∧ attempts ev = 5
        ∧ ev.getLast? = some (.logFatalf "Failed to push file %s after %d attempts"
            [.str (filePath "id"), .int 5]) :=
  ⟨fun _ => ⟨_, rfl⟩,
    pushWithRetry_bounded_exhaustion _ _ _ _ _ _ _ () (fun _ => ⟨_, rfl⟩)⟩

/-- C2.  Conflict convergence.  In an outside world where the ref update is rejected
`K` times and accepted after that (the other calls succeed), the unlimited policy
(`pushUntilSuccess`, given fuel for `K + 1` iterations or more) for every `K`, and
the bounded policy (`pushWithRetry`) for every `K < 5`, return after exactly
`K + 1` attempts: the calls of the run are `K + 1` times the sequence `GetRef`,
`GetCommit`, `CreateTree`, `CreateCommit`, `UpdateRef`, so every attempt begins by
reading the branch ref again; `K` calls fail; and the last event of the run is the
message of success, nothing is called after it. -/
theorem publish_conflict_convergence {σ : Type} (E : Env σ) (P : Nat → σ → Prop)
    (hS : ConflictScript E P)
    (owner repo branch filePath content commitMessage : String) (K : Nat) (s : σ)
    (hP : P K s) :
    (∀ fuel, K + 1 ≤ fuel →
      ∃ s1 ev, pushUntilSuccess E owner repo branch filePath content commitMessage fuel s
          = some (.returned, s1, ev)
        ∧ attempts ev = K + 1
        ∧ callKinds ev = (List.replicate (K + 1) callOrder).flatten
        ∧ failures ev = K
        ∧ ev.getLast? = some
            (.printf "Successfully pushed file %s to the main branch!\n" [.str filePath]))
    ∧ (K < 5 →
      ∃ s1 ev, pushWithRetry E owner repo branch filePath content commitMessage s
          = (.returned, s1, ev)
        ∧ attempts ev = K + 1
        ∧ callKinds ev = (List.replicate (K + 1) callOrder).flatten
        ∧ failures ev = K
        ∧ ev.getLast? = some
            (.printf "Successfully pushed file %s to the main branch!\n"
              [.str filePath])) := by
  constructor
  · intro fuel hfuel
    obtain ⟨s1, ev, hrun, hk, hf, hl⟩ := pushUntilSuccess_convergence E P hS owner repo
      branch filePath content commitMessage K fuel s hP hfuel
    exact ⟨s1, ev, hrun, attempts_of_callKinds ev _ hk, hk, hf, hl⟩
  · intro hK
    obtain ⟨s1, ev, hrun, hk, hf, hl⟩ := pushWithRetryLoop_convergence E P hS owner repo
      branch filePath content commitMessage K 0 s hP (by simp [maxRetries]; omega)
    exact ⟨s1, ev, hrun, attempts_of_callKinds ev _ hk, hk, hf, hl⟩

/-- Witness of C2: the simulated service rejects the ref update three times. -/
theorem publish_conflict_convergence_witness :
    (ConflictScript simEnv simConflicts
      ∧ simConflicts 3 { now := 0, reset := 0, rateLimits := 0, conflicts := 3, raw := 7 })
    ∧ (∀ fuel, 3 + 1 ≤ fuel →
      ∃ s1 ev, pushUntilSuccess simEnv "isindir" "poc" "master" (filePath "id")
          (content 0 "id") (commitMessage 0 "id") fuel
          { now := 0, reset := 0, rateLimits := 0, conflicts := 3, raw := 7 }
          = some (.returned, s1, ev)
        ∧ attempts ev = 3 + 1
        ∧ callKinds ev = (List.replicate (3 + 1) callOrder).flatten
        ∧ failures ev = 3
        ∧ ev.getLast? = some
            (.printf "Successfully pushed file %s to the main branch!\n"
              [.str (filePath "id")]))
    ∧ (3 < 5 →
      ∃ s1 ev, pushWithRetry simEnv "isindir" "poc" "master" (filePath "id")
          (content 0 "id") (commitMessage 0 "id")
          { now := 0, reset := 0, rateLimits := 0, conflicts := 3, raw := 7 }
          = (.returned, s1, ev)
        ∧ attempts ev = 3 + 1
        ∧ callKinds ev = (List.replicate (3 + 1) callOrder).flatten
        ∧ failures ev = 3
        ∧ ev.getLast? = some
            (.printf "Successfully pushed file %s to the main branch!\n"
              [.str (filePath "id")])) :=
  ⟨⟨simEnv_conflictScript, rfl, rfl⟩,
    publish_conflict_convergence simEnv simConflicts simEnv_conflictScript _ _ _ _ _ _ 3 _
      ⟨rfl, rfl⟩⟩

/-- C3.  Rate limit in the unlimited policy, the run of the code.  The simulated
service answers the first `GetRef` with a rate limit whose reset time is `60 s`
while the clock shows `0`.  `pushToMainBranch` hands the error on as a new
`*errors.errorString`, the type assertion of `pushUntilSuccess` fails on it, and the
run logs the error as any other, sleeps the random delay (`50 ms` for the draw `0`)
and makes its second attempt at `50 ms`, long before the reset time; no sleep of
`time.Until` of the reset time (`60 s`) happens. -/
theorem pushUntilSuccess_rate_limit_run :
    pushUntilSuccess simEnv "isindir" "poc" "master" "f" "c" "m" 2
        { now := 0, reset := 60000000000, rateLimits := 1, conflicts := 0, raw := 0 }
      = some (.returned,
          { now := 50000000, reset := 60000000000, rateLimits := 0, conflicts := 0, raw := 0 },
          [.call (.GetRef "isindir" "poc" "refs/heads/master")
              (some (.rateLimitError 60000000000 "API rate limit exceeded")),
           .logPrintf "Error pushing file %s: %v. Retrying..."
              [.str "f", .err (.errorString
                "error getting repository reference: API rate limit exceeded")],
           .sleep 50000000,
           .call (.GetRef "isindir" "poc" "refs/heads/master") none,
           .call (.GetCommit "isindir" "poc" "tip") none,
           .call (.CreateTree "isindir" "poc" "tiptree"
              [{ Path := some "f", Typ := some "blob", Content := some "c",
                 Mode := some "100644" }]) none,
           .call (.CreateCommit "isindir" "poc"
              (Commit.mk none (some "m")
                (some { SHA := some "newtree",
                        Entries := [{ Path := some "f", Typ := some "blob",
                                      Content := some "c", Mode := some "100644" }] })
                [Commit.mk (some "tip") (some "tip commit")
                  (some { SHA := some "tiptree", Entries := [] }) []])) none,
           .call (.UpdateRef "isindir" "poc"
              { Ref := some "refs/heads/master",
                Object := some { Typ := some "commit", SHA := some "new" } } false) none,
           .printf "Successfully pushed file %s to the main branch!\n" [.str "f"]])
    ∧ Until 60000000000 0 = 60000000000 := by
  constructor
  · rfl
  · rfl

/-- C4, the claim as stated fails.  The simulated service answers the first `GetRef`
of `pushWithRetry` with a rate limit whose reset time is `60 s` while the clock
shows `0`; the random source draws `0`.  The run sleeps `0` before attempt 2, which
starts with the clock still at `0`: the time slept is not at least the reset time
minus the time of the failure. -/
theorem pushWithRetry_rate_limit_counterexample :
    pushWithRetry simEnv "isindir" "poc" "master" "f" "c" "m"
        { now := 0, reset := 60000000000, rateLimits := 1, conflicts := 0, raw := 0 }
      = (.returned,
          { now := 0, reset := 60000000000, rateLimits := 0, conflicts := 0, raw := 0 },
          [.call (.GetRef "isindir" "poc" "refs/heads/master")
              (some (.rateLimitError 60000000000 "API rate limit exceeded")),
           .logPrintf "Error pushing file %s: %v"
              [.str "f", .err (.errorString
                "error getting repository reference: API rate limit exceeded")],
           .printf "Retrying push for file %s (attempt %d)...\n" [.str "f", .int 2],
           .sleep 0,
           .call (.GetRef "isindir" "poc" "refs/heads/master") none,
           .call (.GetCommit "isindir" "poc" "tip") none,
           .call (.CreateTree "isindir" "poc" "tiptree"
              [{ Path := some "f", Typ := some "blob", Content := some "c",
                 Mode := some "100644" }]) none,
           .call (.CreateCommit "isindir" "poc"
              (Commit.mk none (some "m")
                (some { SHA := some "newtree",
                        Entries := [{ Path := some "f", Typ := some "blob",
                                      Content := some "c", Mode := some "100644" }] })
                [Commit.mk (some "tip") (some "tip commit")
                  (some { SHA := some "tiptree", Entries := [] }) []])) none,
           .call (.UpdateRef "isindir" "poc"
              { Ref := some "refs/heads/master",
                Object := some { Typ := some "commit", SHA := some "new" } } false) none,
           .printf "Successfully pushed file %s to the main branch!\n" [.str "f"]])
    ∧ ¬ ((60000000000 : Int) - 0 ≤ 0) := by
  have h1 := pushWithRetryLoop_err simEnv "isindir" "poc" "master" "f" "c" "m" 0
    { now := 0, reset := 60000000000, rateLimits := 1, conflicts := 0, raw := 0 } (by decide)
    (.errorString "error getting repository reference: API rate limit exceeded") rfl
  have h2 := pushWithRetryLoop_nil simEnv "isindir" "poc" "master" "f" "c" "m" 1
    { now := 0, reset := 60000000000, rateLimits := 0, conflicts := 0, raw := 0 } (by decide)
    rfl
  exact ⟨h1.trans (congrArg (emit _) h2), by decide⟩

/-- C4, amended.  `pushWithRetry` has no handling of rate limits: it treats a rate
limit as any other failure.  When the attempt of an iteration that is not the last
allowed one (counter `retries`, attempt number `retries + 1`) fails with an error
`e`, whatever `e` is, the loop logs `e`, prints the retry message for attempt
`retries + 2`, sleeps exactly once, `d = pushDelay * rand.Intn(retries + 2)`, and
makes the next attempt in the state right after that sleep.  The delay `d` is in
`[0, 2 s * (retries + 2))`, it is `0` when the draw is `0`, and it is computed from
the draw alone, not from `e` or a reset time.  Over a whole run the sleeps are these
linear delays, one between two consecutive attempts. -/
theorem pushWithRetry_sleep_after_failure {σ : Type} (E : Env σ)
    (owner repo branch filePath content commitMessage : String) (retries : Nat) (s : σ)
    (e : GoError) (s1 : σ) (ev : List Event)
    (hlast : retries + 1 < maxRetries)
    (hfail : pushToMainBranch E owner repo branch filePath content commitMessage
      (retryWait E filePath retries s).2.1 = (.err e, s1, ev)) :
    (∃ d : Duration, d = pushDelay * (((E.Rand s1).1 : Int) % ((retries : Int) + 2))
      ∧ 0 ≤ d ∧ d < 2 * 1000000000 * ((retries : Int) + 2)
      ∧ ((((E.Rand s1).1 : Int) % ((retries : Int) + 2) = 0) → d = 0)
      ∧ ∃ t s2 tail, pushWithRetryLoop E owner repo branch filePath content commitMessage
          retries s =
        (t, s2,
          (retryWait E filePath retries s).2.2 ++ ev
          ++ [.logPrintf "Error pushing file %s: %v" [.str filePath, .err e],
              .printf "Retrying push for file %s (attempt %d)...\n"
                [.str filePath, .int ((retries : Int) + 2)],
              .sleep d]
          ++ (pushToMainBranch E owner repo branch filePath content commitMessage
              (E.Sleep (E.Rand s1).2 d)).2.2
          ++ tail))
    ∧ pushWithRetry E owner repo branch filePath content commitMessage s
        = pushWithRetryLoop E owner repo branch filePath content commitMessage 0 s
    ∧ LinearSleeps 2
        (sleeps (pushWithRetry E owner repo branch filePath content commitMessage s).2.2)
    ∧ (sleeps (pushWithRetry E owner repo branch filePath content commitMessage s).2.2).length
        + 1
      = attempts (pushWithRetry E owner repo branch filePath content commitMessage s).2.2 := by
  refine ⟨?_, rfl,
    pushWithRetry_linearSleeps E owner repo branch filePath content commitMessage s⟩
  have hpos : (0 : Int) < (retries : Int) + 2 := by omega
  have hm0 := Int.emod_nonneg ((E.Rand s1).1 : Int) (ne_of_gt hpos)
  have hm1 := Int.emod_lt_of_pos ((E.Rand s1).1 : Int) hpos
  have hc : (((retries + 1 : Nat) : Int) + 1) = (retries : Int) + 2 := by
    push_cast
    ring
  have e2 : pushDelay = 2000000000 := by simp [pushDelay, Second]
  obtain ⟨t, s2, tail, hrun⟩ := pushWithRetryLoop_begin E owner repo branch filePath content
    commitMessage (retries + 1) s1 (by omega) hlast
  rw [hc] at hrun
  refine ⟨pushDelay * (((E.Rand s1).1 : Int) % ((retries : Int) + 2)), rfl, ?_, ?_, ?_, ?_⟩
  · rw [e2]
    simp only [Duration] at *
    omega
  · rw [e2]
    simp only [Duration] at *
    omega
  · intro h0
    rw [h0, mul_zero]
  · rw [pushWithRetryLoop_err E owner repo branch filePath content commitMessage retries s
      (by omega) e (by rw [hfail]), hfail]
    simp only [hrun, emit, List.append_assoc, List.cons_append, List.nil_append]
    exact ⟨_, _, _, rfl⟩

/-- Witness of C4: the first attempt meets a rate limit whose reset time is `60 s`. -/
theorem pushWithRetry_sleep_after_failure_witness :
    (0 + 1 < maxRetries
      ∧ pushToMainBranch simEnv "isindir" "poc" "master" "f" "c" "m"
          (retryWait simEnv "f" 0
            { now := 0, reset := 60000000000, rateLimits := 1, conflicts := 0, raw := 0 }).2.1
        = (.err (.errorString "error getting repository reference: API rate limit exceeded"),
            { now := 0, reset := 60000000000, rateLimits := 0, conflicts := 0, raw := 0 },
            [.call (.GetRef "isindir" "poc" "refs/heads/master")
              (some (.rateLimitError 60000000000 "API rate limit exceeded"))]))
    ∧ (∃ d : Duration,
        d = pushDelay * (((simEnv.Rand
          { now := 0, reset := 60000000000, rateLimits := 0, conflicts := 0, raw := 0 }).1 : Int)
            % (((0 : Nat) : Int) + 2))
      ∧ 0 ≤ d ∧ d < 2 * 1000000000 * (((0 : Nat) : Int) + 2)
      ∧ ((((simEnv.Rand
          { now := 0, reset := 60000000000, rateLimits := 0, conflicts := 0, raw := 0 }).1 : Int)
            % (((0 : Nat) : Int) + 2) = 0) → d = 0)
      ∧ ∃ t s2 tail, pushWithRetryLoop simEnv "isindir" "poc" "master" "f" "c" "m" 0
          { now := 0, reset := 60000000000, rateLimits := 1, conflicts := 0, raw := 0 } =
        (t, s2,
          (retryWait simEnv "f" 0
            { now := 0, reset := 60000000000, rateLimits := 1, conflicts := 0, raw := 0 }).2.2
          ++ [.call (.GetRef "isindir" "poc" "refs/heads/master")
              (some (.rateLimitError 60000000000 "API rate limit exceeded"))]
          ++ [.logPrintf "Error pushing file %s: %v"
                [.str "f", .err (.errorString
                  "error getting repository reference: API rate limit exceeded")],
              .printf "Retrying push for file %s (attempt %d)...\n"
                [.str "f", .int (((0 : Nat) : Int) + 2)],
              .sleep d]
          ++ (pushToMainBranch simEnv "isindir" "poc" "master" "f" "c" "m"
              (simEnv.Sleep (simEnv.Rand
                { now := 0, reset := 60000000000, rateLimits := 0, conflicts := 0,
                  raw := 0 }).2 d)).2.2
          ++ tail))
    ∧ pushWithRetry simEnv "isindir" "poc" "master" "f" "c" "m"
          { now := 0, reset := 60000000000, rateLimits := 1, conflicts := 0, raw := 0 }
        = pushWithRetryLoop simEnv "isindir" "poc" "master" "f" "c" "m" 0
          { now := 0, reset := 60000000000, rateLimits := 1, conflicts := 0, raw := 0 }
    ∧ LinearSleeps 2
        (sleeps (pushWithRetry simEnv "isindir" "poc" "master" "f" "c" "m"
          { now := 0, reset := 60000000000, rateLimits := 1, conflicts := 0, raw := 0 }).2.2)
    ∧ (sleeps (pushWithRetry simEnv "isindir" "poc" "master" "f" "c" "m"
          { now := 0, reset := 60000000000, rateLimits := 1, conflicts := 0, raw := 0 }).2.2).length
        + 1
      = attempts (pushWithRetry simEnv "isindir" "poc" "master" "f" "c" "m"
          { now := 0, reset := 60000000000, rateLimits := 1, conflicts := 0, raw := 0 }).2.2 :=
  ⟨⟨by decide, rfl⟩,
    pushWithRetry_sleep_after_failure simEnv "isindir" "poc" "master" "f" "c" "m" 0
      { now := 0, reset := 60000000000, rateLimits := 1, conflicts := 0, raw := 0 }
      (.errorString "error getting repository reference: API rate limit exceeded")
      { now := 0, reset := 60000000000, rateLimits := 0, conflicts := 0, raw := 0 }
      [.call (.GetRef "isindir" "poc" "refs/heads/master")
        (some (.rateLimitError 60000000000 "API rate limit exceeded"))]
      (by decide) rfl⟩

/-- C5.  Backoff bounds of the unlimited policy.  The argument of `rand.Int63n`,
`pushDelayMax - pushDelayMin`, is positive, so the draw does not panic and every
raw draw gives a value of `[0, pushDelayMax - pushDelayMin)`; for every value `v` of
that range `time.Duration(v) + pushDelayMin` is at least `50 ms` and less than `5 s`
(nanoseconds).  And this is what the loop sleeps: when an attempt of
`pushUntilSuccess` fails with an error `e` (at this point no error has the type of a
rate limit), the loop logs `e`, sleeps exactly once, the delay
`d = rand.Int63n(pushDelayMax - pushDelayMin) + pushDelayMin` with
`50 ms ≤ d < 5 s`, and goes on with the next iteration in the state after the
sleep; when the next attempt succeeds the run returns with exactly these events. -/
theorem pushUntilSuccess_backoff_bounds {σ : Type} (E : Env σ)
    (owner repo branch filePath content commitMessage : String) (s : σ)
    (e : GoError) (s1 : σ) (ev : List Event)
    (hfail : pushToMainBranch E owner repo branch filePath content commitMessage s
      = (.err e, s1, ev))
    (v : Int) (h0 : 0 ≤ v) (h1 : v < pushDelayMax - pushDelayMin) :
    0 < pushDelayMax - pushDelayMin
    ∧ (50000000 ≤ uniformDelay v ∧ uniformDelay v < 5000000000)
    ∧ (∀ raw : Nat, ∃ v0, Int63n (pushDelayMax - pushDelayMin) raw = some v0
        ∧ 0 ≤ v0 ∧ v0 < pushDelayMax - pushDelayMin)
    ∧ ∃ d : Duration,
        d = ((E.Rand s1).1 : Int) % (pushDelayMax - pushDelayMin) + pushDelayMin
      ∧ 50000000 ≤ d ∧ d < 5000000000
      ∧ (∀ fuel, pushUntilSuccess E owner repo branch filePath content commitMessage
            (fuel + 1) s =
          (pushUntilSuccess E owner repo branch filePath content commitMessage fuel
            (E.Sleep (E.Rand s1).2 d)).map
            (emit (ev ++
              [.logPrintf "Error pushing file %s: %v. Retrying..." [.str filePath, .err e],
               .sleep d])))
      ∧ (∀ fuel s2 ev2,
          pushToMainBranch E owner repo branch filePath content commitMessage
            (E.Sleep (E.Rand s1).2 d) = (.nil, s2, ev2) →
          pushUntilSuccess E owner repo branch filePath content commitMessage
            (fuel + 2) s =
          some (.returned, s2,
            (ev ++
              [.logPrintf "Error pushing file %s: %v. Retrying..." [.str filePath, .err e],
               .sleep d])
            ++ (ev2 ++
              [.printf "Successfully pushed file %s to the main branch!\n"
                [.str filePath]]))) := by
  have hpos : (0 : Int) < pushDelayMax - pushDelayMin := by
    simp [pushDelayMax, pushDelayMin, Second, Millisecond]
  have hv := uniformDelay_eq v h0 h1
  have hd := uniformDelay_eq (((E.Rand s1).1 : Int) % (pushDelayMax - pushDelayMin))
    (Int.emod_nonneg _ (ne_of_gt hpos)) (Int.emod_lt_of_pos _ hpos)
  have hstep := pushUntilSuccess_err E owner repo branch filePath content commitMessage
  refine ⟨hpos, ⟨by rw [hv.1]; exact hv.2.1, by rw [hv.1]; exact hv.2.2⟩, ?_, _, rfl,
    hd.2.1, hd.2.2, fun fuel => hstep fuel s e s1 ev hfail, ?_⟩
  · intro raw
    exact ⟨(raw : Int) % (pushDelayMax - pushDelayMin),
      by simp [Int63n, not_le.mpr hpos],
      Int.emod_nonneg _ (ne_of_gt hpos), Int.emod_lt_of_pos _ hpos⟩
  · intro fuel s2 ev2 hnext
    rw [hstep (fuel + 1) s e s1 ev hfail, pushUntilSuccess, hnext]
    rfl

/-- Witness of C5: the simulated service rejects the first ref update, the largest
draw of `rand.Int63n` follows. -/
theorem pushUntilSuccess_backoff_bounds_witness :
    (pushToMainBranch simEnv "isindir" "poc" "master" "f" "c" "m"
        { now := 0, reset := 0, rateLimits := 0, conflicts := 1, raw := 4949999999 }
      = (.err (.errorString "error updating ref: Update is not a fast forward"),
          { now := 0, reset := 0, rateLimits := 0, conflicts := 0, raw := 4949999999 },
          (pushToMainBranch simEnv "isindir" "poc" "master" "f" "c" "m"
            { now := 0, reset := 0, rateLimits := 0, conflicts := 1, raw := 4949999999 }).2.2)
      ∧ (0 : Int) ≤ 4949999999 ∧ (4949999999 : Int) < pushDelayMax - pushDelayMin)
    ∧ 0 < pushDelayMax - pushDelayMin
    ∧ (50000000 ≤ uniformDelay 4949999999 ∧ uniformDelay 4949999999 < 5000000000)
    ∧ (∀ raw : Nat, ∃ v0, Int63n (pushDelayMax - pushDelayMin) raw = some v0
        ∧ 0 ≤ v0 ∧ v0 < pushDelayMax - pushDelayMin)
    ∧ ∃ d : Duration,
        d = ((simEnv.Rand
            { now := 0, reset := 0, rateLimits := 0, conflicts := 0, raw := 4949999999 }).1 : Int)
          % (pushDelayMax - pushDelayMin) + pushDelayMin
      ∧ 50000000 ≤ d ∧ d < 5000000000
      ∧ (∀ fuel, pushUntilSuccess simEnv "isindir" "poc" "master" "f" "c" "m" (fuel + 1)
            { now := 0, reset := 0, rateLimits := 0, conflicts := 1, raw := 4949999999 } =
          (pushUntilSuccess simEnv "isindir" "poc" "master" "f" "c" "m" fuel
            (simEnv.Sleep (simEnv.Rand
              { now := 0, reset := 0, rateLimits := 0, conflicts := 0,
                raw := 4949999999 }).2 d)).map
            (emit ((pushToMainBranch simEnv "isindir" "poc" "master" "f" "c" "m"
                { now := 0, reset := 0, rateLimits := 0, conflicts := 1,
                  raw := 4949999999 }).2.2 ++
              [.logPrintf "Error pushing file %s: %v. Retrying..."
                [.str "f", .err (.errorString
                  "error updating ref: Update is not a fast forward")],
               .sleep d])))
      ∧ (∀ fuel s2 ev2,
          pushToMainBranch simEnv "isindir" "poc" "master" "f" "c" "m"
            (simEnv.Sleep (simEnv.Rand
              { now := 0, reset := 0, rateLimits := 0, conflicts := 0,
                raw := 4949999999 }).2 d) = (.nil, s2, ev2) →
          pushUntilSuccess simEnv "isindir" "poc" "master" "f" "c" "m" (fuel + 2)
            { now := 0, reset := 0, rateLimits := 0, conflicts := 1, raw := 4949999999 } =
          some (.returned, s2,
            ((pushToMainBranch simEnv "isindir" "poc" "master" "f" "c" "m"
                { now := 0, reset := 0, rateLimits := 0, conflicts := 1,
                  raw := 4949999999 }).2.2 ++
              [.logPrintf "Error pushing file %s: %v. Retrying..."
                [.str "f", .err (.errorString
                  "error updating ref: Update is not a fast forward")],
               .sleep d])
            ++ (ev2 ++
              [.printf "Successfully pushed file %s to the main branch!\n" [.str "f"]]))) :=
  ⟨⟨rfl, by decide, by decide⟩,
    pushUntilSuccess_backoff_bounds simEnv "isindir" "poc" "master" "f" "c" "m"
      { now := 0, reset := 0, rateLimits := 0, conflicts := 1, raw := 4949999999 }
      (.errorString "error updating ref: Update is not a fast forward")
      { now := 0, reset := 0, rateLimits := 0, conflicts := 0, raw := 4949999999 }
      (pushToMainBranch simEnv "isindir" "poc" "master" "f" "c" "m"
        { now := 0, reset := 0, rateLimits := 0, conflicts := 1, raw := 4949999999 }).2.2
      rfl 4949999999 (by decide) (by decide)⟩

/-- C6.  Backoff bounds of the bounded policy.  For every attempt number `a` with
`2 ≤ a ≤ 5`: every value `v` that `rand.Intn(a)` can draw gives a delay
`pushDelay * v` of `[0, 2 s * a)`; the iteration of the loop of `pushWithRetry` that
makes attempt `a` (counter `a - 1`) begins by printing the retry message with the
number `a` and sleeping exactly once, `d = pushDelay * rand.Intn(a)` with
`0 ≤ d < 2 s * a`, and then makes the attempt in the state right after that sleep.
Attempt 1 is preceded by no delay: the run of `pushWithRetry` begins with the events
of the attempt made in the initial state, whose first is the call of `GetRef`.  The
iterations are the attempts in order: `pushWithRetry` is the loop from counter `0`,
and an iteration whose attempt fails logs the error and goes on with the next
counter. -/
theorem pushWithRetry_backoff_bounds {σ : Type} (E : Env σ)
    (owner repo branch filePath content commitMessage : String) (s : σ)
    (a : Nat) (h2 : 2 ≤ a) (h5 : a ≤ 5) (v : Int) (hv0 : 0 ≤ v) (hv : v < a) :
    (0 ≤ linearDelay v ∧ linearDelay v < 2 * 1000000000 * (a : Int))
    ∧ (∃ v0 : Int, 0 ≤ v0 ∧ v0 < a ∧ Intn a (E.Rand s).1 = some v0
        ∧ retryWait E filePath (a - 1) s =
          (true, E.Sleep (E.Rand s).2 (linearDelay v0),
            [.printf "Retrying push for file %s (attempt %d)...\n"
                [.str filePath, .int a],
             .sleep (linearDelay v0)]))
    ∧ (∃ d : Duration, d = pushDelay * (((E.Rand s).1 : Int) % (a : Int))
        ∧ 0 ≤ d ∧ d < 2 * 1000000000 * (a : Int)
        ∧ ∃ t s2 tail, pushWithRetryLoop E owner repo branch filePath content commitMessage
            (a - 1) s =
          (t, s2,
            [.printf "Retrying push for file %s (attempt %d)...\n"
                [.str filePath, .int a],
             .sleep d]
            ++ (pushToMainBranch E owner repo branch filePath content commitMessage
                (E.Sleep (E.Rand s).2 d)).2.2
            ++ tail))
    ∧ (∃ t s2 tail, pushWithRetry E owner repo branch filePath content commitMessage s =
        (t, s2,
          (pushToMainBranch E owner repo branch filePath content commitMessage s).2.2
            ++ tail))
    ∧ (∃ f rest,
        (pushWithRetry E owner repo branch filePath content commitMessage s).2.2
          = .call (.GetRef owner repo ("refs/heads/" ++ branch)) f :: rest)
    ∧ pushWithRetry E owner repo branch filePath content commitMessage s
        = pushWithRetryLoop E owner repo branch filePath content commitMessage 0 s
    ∧ (∀ (retries : Nat) (s0 : σ) (e : GoError) (s1 : σ) (ev : List Event),
        retries < maxRetries →
        pushToMainBranch E owner repo branch filePath content commitMessage
          (retryWait E filePath retries s0).2.1 = (.err e, s1, ev) →
        pushWithRetryLoop E owner repo branch filePath content commitMessage retries s0 =
          emit ((retryWait E filePath retries s0).2.2 ++ ev
              ++ [.logPrintf "Error pushing file %s: %v" [.str filePath, .err e]])
            (pushWithRetryLoop E owner repo branch filePath content commitMessage
              (retries + 1) s1)) := by
  have hpos : (0 : Int) < (a : Int) := by omega
  have hcast : (((a - 1 : Nat) : Int) + 1) = (a : Int) := by omega
  have e2 : pushDelay = 2000000000 := by simp [pushDelay, Second]
  have hm0 := Int.emod_nonneg ((E.Rand s).1 : Int) (ne_of_gt hpos)
  have hm1 := Int.emod_lt_of_pos ((E.Rand s).1 : Int) hpos
  obtain ⟨t1, s3, tail1, hfirst⟩ := pushWithRetryLoop_first E owner repo branch filePath
    content commitMessage s
  refine ⟨?_, ?_, ?_, ⟨t1, s3, tail1, hfirst⟩, ?_, rfl, ?_⟩
  · rw [linearDelay_eq v hv0 (by omega), e2]
    simp only [Duration] at *
    constructor
    · omega
    · omega
  · have hw := retryWait_pos E filePath (a - 1) s (by omega)
    rw [hcast] at hw
    refine ⟨((E.Rand s).1 : Int) % (a : Int), hm0, hm1, ?_, hw⟩
    simp [Intn]
    omega
  · obtain ⟨t, s2, tail, hrun⟩ := pushWithRetryLoop_begin E owner repo branch filePath
      content commitMessage (a - 1) s (by omega) (by simp [maxRetries]; omega)
    rw [hcast] at hrun
    refine ⟨pushDelay * (((E.Rand s).1 : Int) % (a : Int)), rfl, ?_, ?_, t, s2, tail, hrun⟩
    · rw [e2]
      simp only [Duration] at *
      omega
    · rw [e2]
      simp only [Duration] at *
      omega
  · obtain ⟨f, rest, hev⟩ := pushToMainBranch_first_event E owner repo branch filePath
      content commitMessage s
    unfold pushWithRetry
    rw [hfirst, hev]
    exact ⟨f, rest ++ tail1, rfl⟩
  · intro retries s0 e s1 ev hlt hfail
    rw [pushWithRetryLoop_err E owner repo branch filePath content commitMessage retries s0
      hlt e (by rw [hfail]), hfail]

/-- Witness of C6: the last attempt, `a = 5`, and the largest draw, `v = 4`. -/
theorem pushWithRetry_backoff_bounds_witness :
    (2 ≤ 5 ∧ 5 ≤ 5 ∧ (0 : Int) ≤ 4 ∧ (4 : Int) < (5 : Nat))
    ∧ (0 ≤ linearDelay 4 ∧ linearDelay 4 < 2 * 1000000000 * ((5 : Nat) : Int))
    ∧ (∃ v0 : Int, 0 ≤ v0 ∧ v0 < (5 : Nat)
        ∧ Intn (5 : Nat)
            (simEnv.Rand { now := 0, reset := 0, rateLimits := 0, conflicts := 0, raw := 9 }).1
          = some v0
        ∧ retryWait simEnv "f" (5 - 1)
            { now := 0, reset := 0, rateLimits := 0, conflicts := 0, raw := 9 } =
          (true,
            simEnv.Sleep
              (simEnv.Rand { now := 0, reset := 0, rateLimits := 0, conflicts := 0, raw := 9 }).2
              (linearDelay v0),
            [.printf "Retrying push for file %s (attempt %d)...\n"
                [.str "f", .int (5 : Nat)],
             .sleep (linearDelay v0)]))
    ∧ (∃ d : Duration,
        d = pushDelay * (((simEnv.Rand
            { now := 0, reset := 0, rateLimits := 0, conflicts := 0, raw := 9 }).1 : Int)
          % ((5 : Nat) : Int))
        ∧ 0 ≤ d ∧ d < 2 * 1000000000 * ((5 : Nat) : Int)
        ∧ ∃ t s2 tail, pushWithRetryLoop simEnv "isindir" "poc" "master" "f" "c" "m" (5 - 1)
            { now := 0, reset := 0, rateLimits := 0, conflicts := 0, raw := 9 } =
          (t, s2,
            [.printf "Retrying push for file %s (attempt %d)...\n"
                [.str "f", .int (5 : Nat)],
             .sleep d]
            ++ (pushToMainBranch simEnv "isindir" "poc" "master" "f" "c" "m"
                (simEnv.Sleep (simEnv.Rand
                  { now := 0, reset := 0, rateLimits := 0, conflicts := 0, raw := 9 }).2 d)).2.2
            ++ tail))
    ∧ (∃ t s2 tail, pushWithRetry simEnv "isindir" "poc" "master" "f" "c" "m"
          { now := 0, reset := 0, rateLimits := 0, conflicts := 0, raw := 9 } =
        (t, s2,
          (pushToMainBranch simEnv "isindir" "poc" "master" "f" "c" "m"
            { now := 0, reset := 0, rateLimits := 0, conflicts := 0, raw := 9 }).2.2
            ++ tail))
    ∧ (∃ f rest,
        (pushWithRetry simEnv "isindir" "poc" "master" "f" "c" "m"
          { now := 0, reset := 0, rateLimits := 0, conflicts := 0, raw := 9 }).2.2
          = .call (.GetRef "isindir" "poc" ("refs/heads/" ++ "master")) f :: rest)
    ∧ pushWithRetry simEnv "isindir" "poc" "master" "f" "c" "m"
          { now := 0, reset := 0, rateLimits := 0, conflicts := 0, raw := 9 }
        = pushWithRetryLoop simEnv "isindir" "poc" "master" "f" "c" "m" 0
          { now := 0, reset := 0, rateLimits := 0, conflicts := 0, raw := 9 }
    ∧ (∀ (retries : Nat) (s0 : Sim) (e : GoError) (s1 : Sim) (ev : List Event),
        retries < maxRetries →
        pushToMainBranch simEnv "isindir" "poc" "master" "f" "c" "m"
          (retryWait simEnv "f" retries s0).2.1 = (.err e, s1, ev) →
        pushWithRetryLoop simEnv "isindir" "poc" "master" "f" "c" "m" retries s0 =
          emit ((retryWait simEnv "f" retries s0).2.2 ++ ev
              ++ [.logPrintf "Error pushing file %s: %v" [.str "f", .err e]])
            (pushWithRetryLoop simEnv "isindir" "poc" "master" "f" "c" "m"
              (retries + 1) s1)) :=
  ⟨⟨by decide, by decide, by decide, by decide⟩,
    pushWithRetry_backoff_bounds simEnv "isindir" "poc" "master" "f" "c" "m"
      { now := 0, reset := 0, rateLimits := 0, conflicts := 0, raw := 9 }
      5 (by decide) (by decide) 4 (by decide) (by decide)⟩

/-- C7.  Same observed tip within one attempt.  When an attempt of
`pushToMainBranch` reaches the ref update, its calls are exactly: `GetRef` of the
branch, answering `ref`; `GetCommit` of the SHA of `ref`, answering `commit`;
`CreateTree` on the SHA of the tree of `commit` with the one entry of the file;
`CreateCommit` of a commit with that new tree and the single parent `commit`,
answering `commitResponse`; and `UpdateRef` of `ref` with the SHA of
`commitResponse`, with `force = false`.  The attempt returns `nil` when the update
is accepted and the error `"error updating ref: ..."` when it is rejected. -/
theorem pushToMainBranch_same_tip {σ : Type} (E : Env σ)
    (owner repo branch filePath content commitMessage : String) (s : σ)
    (h : CallKind.UpdateRef ∈
      callKinds (pushToMainBranch E owner repo branch filePath content commitMessage s).2.2) :
    ∃ (ref : Reference) (obj : GitObject) (sha : String) (s1 : σ)
      (commit : Commit) (baseTree : Tree) (baseSHA : String) (s2 : σ)
      (tree : Tree) (s3 : σ) (commitResponse : Commit) (s4 : σ),
      E.GetRef s owner repo ("refs/heads/" ++ branch) = (.ok ref, s1)
      ∧ ref.Object = some obj ∧ obj.SHA = some sha
      ∧ E.GetCommit s1 owner repo sha = (.ok commit, s2)
      ∧ commit.Tree = some baseTree ∧ baseTree.SHA = some baseSHA
      ∧ E.CreateTree s2 owner repo baseSHA
          [{ Path := some filePath, Typ := some "blob", Content := some content,
             Mode := some "100644" }] = (.ok tree, s3)
      ∧ E.CreateCommit s3 owner repo
          (Commit.mk none (some commitMessage) (some tree) [commit]) = (.ok commitResponse, s4)
      ∧ (pushToMainBranch E owner repo branch filePath content commitMessage s).2.2 =
          [.call (.GetRef owner repo ("refs/heads/" ++ branch)) none,
           .call (.GetCommit owner repo sha) none,
           .call (.CreateTree owner repo baseSHA
              [{ Path := some filePath, Typ := some "blob", Content := some content,
                 Mode := some "100644" }]) none,
           .call (.CreateCommit owner repo
              (Commit.mk none (some commitMessage) (some tree) [commit])) none,
           .call (.UpdateRef owner repo
              { Ref := ref.Ref, Object := some { Typ := obj.Typ, SHA := commitResponse.SHA } }
              false)
             (failureOf (E.UpdateRef s4 owner repo
                { Ref := ref.Ref, Object := some { Typ := obj.Typ, SHA := commitResponse.SHA } }
                false).1)]
      ∧ (pushToMainBranch E owner repo branch filePath content commitMessage s).1 =
          (match failureOf (E.UpdateRef s4 owner repo
                { Ref := ref.Ref, Object := some { Typ := obj.Typ, SHA := commitResponse.SHA } }
                false).1 with
           | none => AttemptResult.nil
           | some err => AttemptResult.err (Errorf "error updating ref: " err)) := by
  revert h
  unfold pushToMainBranch
  simp only []
  repeat' split
  all_goals intro h
  all_goals first
    | (simp [callKinds, Call.kind] at h; done)
    | exact ⟨_, _, _, _, _, _, _, _, _, _, _, _, ‹_›, ‹_›, ‹_›, ‹_›, ‹_›, ‹_›, ‹_›, ‹_›,
        by simp [failureOf, *], by simp [failureOf, *]⟩

/-- Witness of C7: an attempt whose ref update the simulated service rejects. -/
theorem pushToMainBranch_same_tip_witness :
    CallKind.UpdateRef ∈ callKinds (pushToMainBranch simEnv "isindir" "poc" "master" "f" "c"
      "m" { now := 0, reset := 0, rateLimits := 0, conflicts := 1, raw := 0 }).2.2
    ∧ ∃ (ref : Reference) (obj : GitObject) (sha : String) (s1 : Sim)
      (commit : Commit) (baseTree : Tree) (baseSHA : String) (s2 : Sim)
      (tree : Tree) (s3 : Sim) (commitResponse : Commit) (s4 : Sim),
      simEnv.GetRef { now := 0, reset := 0, rateLimits := 0, conflicts := 1, raw := 0 }
          "isindir" "poc" ("refs/heads/" ++ "master") = (.ok ref, s1)
      ∧ ref.Object = some obj ∧ obj.SHA = some sha
      ∧ simEnv.GetCommit s1 "isindir" "poc" sha = (.ok commit, s2)
      ∧ commit.Tree = some baseTree ∧ baseTree.SHA = some baseSHA
      ∧ simEnv.CreateTree s2 "isindir" "poc" baseSHA
          [{ Path := some "f", Typ := some "blob", Content := some "c",
             Mode := some "100644" }] = (.ok tree, s3)
      ∧ simEnv.CreateCommit s3 "isindir" "poc"
          (Commit.mk none (some "m") (some tree) [commit]) = (.ok commitResponse, s4)
      ∧ (pushToMainBranch simEnv "isindir" "poc" "master" "f" "c" "m"
          { now := 0, reset := 0, rateLimits := 0, conflicts := 1, raw := 0 }).2.2 =
          [.call (.GetRef "isindir" "poc" ("refs/heads/" ++ "master")) none,
           .call (.GetCommit "isindir" "poc" sha) none,
           .call (.CreateTree "isindir" "poc" baseSHA
              [{ Path := some "f", Typ := some "blob", Content := some "c",
                 Mode := some "100644" }]) none,
           .call (.CreateCommit "isindir" "poc"
              (Commit.mk none (some "m") (some tree) [commit])) none,
           .call (.UpdateRef "isindir" "poc"
              { Ref := ref.Ref, Object := some { Typ := obj.Typ, SHA := commitResponse.SHA } }
              false)
             (failureOf (simEnv.UpdateRef s4 "isindir" "poc"
                { Ref := ref.Ref, Object := some { Typ := obj.Typ, SHA := commitResponse.SHA } }
                false).1)]
      ∧ (pushToMainBranch simEnv "isindir" "poc" "master" "f" "c" "m"
          { now := 0, reset := 0, rateLimits := 0, conflicts := 1, raw := 0 }).1 =
          (match failureOf (simEnv.UpdateRef s4 "isindir" "poc"
                { Ref := ref.Ref, Object := some { Typ := obj.Typ, SHA := commitResponse.SHA } }
                false).1 with
           | none => AttemptResult.nil
           | some err => AttemptResult.err (Errorf "error updating ref: " err)) :=
  ⟨by decide,
    pushToMainBranch_same_tip simEnv "isindir" "poc" "master" "f" "c" "m"
      { now := 0, reset := 0, rateLimits := 0, conflicts := 1, raw := 0 } (by decide)⟩

/-- C8.  Unique target paths.  The target path of a unit is `"unique-file-"`, its
identifier, `".txt"`: two units whose identifiers differ have different target
paths, whatever their indices are. -/
theorem unitOfWork_filePath_injective (i j : Int) (a b : String) (h : a ≠ b) :
    (unitOfWork i a).filePath ≠ (unitOfWork j b).filePath ∧
    (unitOfWork i a).filePath = "unique-file-" ++ a ++ ".txt" := by
  refine ⟨fun hp => h (filePath_injective a b hp), rfl⟩

/-- Witness of C8: two units with different identifiers. -/
theorem unitOfWork_filePath_injective_witness :
    "6ba7b810-9dad-11d1-80b4-00c04fd430c8" ≠ "6ba7b811-9dad-11d1-80b4-00c04fd430c8"
    ∧ (unitOfWork 0 "6ba7b810-9dad-11d1-80b4-00c04fd430c8").filePath
        ≠ (unitOfWork 1 "6ba7b811-9dad-11d1-80b4-00c04fd430c8").filePath
    ∧ (unitOfWork 0 "6ba7b810-9dad-11d1-80b4-00c04fd430c8").filePath
        = "unique-file-" ++ "6ba7b810-9dad-11d1-80b4-00c04fd430c8" ++ ".txt" :=
  ⟨by decide, unitOfWork_filePath_injective 0 1 _ _ (by decide)⟩

/-- C10.  An attempt stops at its first failing step.  `pushToMainBranch` always
calls `GetRef`; it goes on to `GetCommit`, `CreateTree`, `CreateCommit` and
`UpdateRef`, in this order, each on the answers of the calls before it and in the
state the call before it left, as long as the calls succeed.  When a call fails
with an error `err`, the attempt returns at once the error made of the message of
that step and `err`, in the state that call left, and the later calls are not made:
its events are the successful calls so far and the failed one.  It returns `nil`
exactly when the five calls succeeded.  (When an answer lacks the SHA that the next
step reads, the process panics at that point.)  In terms of its events: the calls
are a prefix of the five in order and the attempt does nothing else to the outside
world; every call but the last one made succeeded; the last call made failed if and
only if the attempt returns an error; and the attempt returns `nil` if and only if
it made all five calls and all of them succeeded. -/
theorem pushToMainBranch_stops_at_first_failure {σ : Type} (E : Env σ)
    (owner repo branch filePath content commitMessage : String) (s : σ) :
    ((∃ err s1, E.GetRef s owner repo ("refs/heads/" ++ branch) = (.error err, s1)
      ∧ pushToMainBranch E owner repo branch filePath content commitMessage s =
        (.err (Errorf "error getting repository reference: " err), s1,
          [.call (.GetRef owner repo ("refs/heads/" ++ branch)) (some err)]))
    ∨ (∃ ref s1, E.GetRef s owner repo ("refs/heads/" ++ branch) = (.ok ref, s1)
      ∧ (ref.Object = none ∨ ∃ obj, ref.Object = some obj ∧ obj.SHA = none)
      ∧ pushToMainBranch E owner repo branch filePath content commitMessage s =
        (.panic, s1, [.call (.GetRef owner repo ("refs/heads/" ++ branch)) none]))
    ∨ (∃ ref obj sha s1 err s2,
      E.GetRef s owner repo ("refs/heads/" ++ branch) = (.ok ref, s1)
      ∧ ref.Object = some obj ∧ obj.SHA = some sha
      ∧ E.GetCommit s1 owner repo sha = (.error err, s2)
      ∧ pushToMainBranch E owner repo branch filePath content commitMessage s =
        (.err (Errorf "error getting latest commit: " err), s2,
          [.call (.GetRef owner repo ("refs/heads/" ++ branch)) none,
           .call (.GetCommit owner repo sha) (some err)]))
    ∨ (∃ ref obj sha s1 commit s2,
      E.GetRef s owner repo ("refs/heads/" ++ branch) = (.ok ref, s1)
      ∧ ref.Object = some obj ∧ obj.SHA = some sha
      ∧ E.GetCommit s1 owner repo sha = (.ok commit, s2)
      ∧ (commit.Tree = none ∨ ∃ baseTree, commit.Tree = some baseTree ∧ baseTree.SHA = none)
      ∧ pushToMainBranch E owner repo branch filePath content commitMessage s =
        (.panic, s2,
          [.call (.GetRef owner repo ("refs/heads/" ++ branch)) none,
           .call (.GetCommit owner repo sha) none]))
    ∨ (∃ ref obj sha s1 commit baseTree baseSHA s2 err s3,
      E.GetRef s owner repo ("refs/heads/" ++ branch) = (.ok ref, s1)
      ∧ ref.Object = some obj ∧ obj.SHA = some sha
      ∧ E.GetCommit s1 owner repo sha = (.ok commit, s2)
      ∧ commit.Tree = some baseTree ∧ baseTree.SHA = some baseSHA
      ∧ E.CreateTree s2 owner repo baseSHA
          [{ Path := some filePath, Typ := some "blob", Content := some content,
             Mode := some "100644" }] = (.error err, s3)
      ∧ pushToMainBranch E owner repo branch filePath content commitMessage s =
        (.err (Errorf "error creating tree: " err), s3,
          [.call (.GetRef owner repo ("refs/heads/" ++ branch)) none,
           .call (.GetCommit owner repo sha) none,
           .call (.CreateTree owner repo baseSHA
              [{ Path := some filePath, Typ := some "blob", Content := some content,
                 Mode := some "100644" }]) (some err)]))
    ∨ (∃ ref obj sha s1 commit baseTree baseSHA s2 tree s3 err s4,
      E.GetRef s owner repo ("refs/heads/" ++ branch) = (.ok ref, s1)
      ∧ ref.Object = some obj ∧ obj.SHA = some sha
      ∧ E.GetCommit s1 owner repo sha = (.ok commit, s2)
      ∧ commit.Tree = some baseTree ∧ baseTree.SHA = some baseSHA
      ∧ E.CreateTree s2 owner repo baseSHA
          [{ Path := some filePath, Typ := some "blob", Content := some content,
             Mode := some "100644" }] = (.ok tree, s3)
      ∧ E.CreateCommit s3 owner repo
          (Commit.mk none (some commitMessage) (some tree) [commit]) = (.error err, s4)
      ∧ pushToMainBranch E owner repo branch filePath content commitMessage s =
        (.err (Errorf "error creating commit: " err), s4,
          [.call (.GetRef owner repo ("refs/heads/" ++ branch)) none,
           .call (.GetCommit owner repo sha) none,
           .call (.CreateTree owner repo baseSHA
              [{ Path := some filePath, Typ := some "blob", Content := some content,
                 Mode := some "100644" }]) none,
           .call (.CreateCommit owner repo
              (Commit.mk none (some commitMessage) (some tree) [commit])) (some err)]))
    ∨ (∃ ref obj sha s1 commit baseTree baseSHA s2 tree s3 commitResponse s4 err s5,
      E.GetRef s owner repo ("refs/heads/" ++ branch) = (.ok ref, s1)
      ∧ ref.Object = some obj ∧ obj.SHA = some sha
      ∧ E.GetCommit s1 owner repo sha = (.ok commit, s2)
      ∧ commit.Tree = some baseTree ∧ baseTree.SHA = some baseSHA
      ∧ E.CreateTree s2 owner repo baseSHA
          [{ Path := some filePath, Typ := some "blob", Content := some content,
             Mode := some "100644" }] = (.ok tree, s3)
      ∧ E.CreateCommit s3 owner repo
          (Commit.mk none (some commitMessage) (some tree) [commit]) = (.ok commitResponse, s4)
      ∧ E.UpdateRef s4 owner repo
          { Ref := ref.Ref, Object := some { Typ := obj.Typ, SHA := commitResponse.SHA } }
          false = (.error err, s5)
      ∧ pushToMainBranch E owner repo branch filePath content commitMessage s =
        (.err (Errorf "error updating ref: " err), s5,
          [.call (.GetRef owner repo ("refs/heads/" ++ branch)) none,
           .call (.GetCommit owner repo sha) none,
           .call (.CreateTree owner repo baseSHA
              [{ Path := some filePath, Typ := some "blob", Content := some content,
                 Mode := some "100644" }]) none,
           .call (.CreateCommit owner repo
              (Commit.mk none (some commitMessage) (some tree) [commit])) none,
           .call (.UpdateRef owner repo
              { Ref := ref.Ref, Object := some { Typ := obj.Typ, SHA := commitResponse.SHA } }
              false) (some err)]))
    ∨ (∃ ref obj sha s1 commit baseTree baseSHA s2 tree s3 commitResponse s4 newRef s5,
      E.GetRef s owner repo ("refs/heads/" ++ branch) = (.ok ref, s1)
      ∧ ref.Object = some obj ∧ obj.SHA = some sha
      ∧ E.GetCommit s1 owner repo sha = (.ok commit, s2)
      ∧ commit.Tree = some baseTree ∧ baseTree.SHA = some baseSHA
      ∧ E.CreateTree s2 owner repo baseSHA
          [{ Path := some filePath, Typ := some "blob", Content := some content,
             Mode := some "100644" }] = (.ok tree, s3)
      ∧ E.CreateCommit s3 owner repo
          (Commit.mk none (some commitMessage) (some tree) [commit]) = (.ok commitResponse, s4)
      ∧ E.UpdateRef s4 owner repo
          { Ref := ref.Ref, Object := some { Typ := obj.Typ, SHA := commitResponse.SHA } }
          false = (.ok newRef, s5)
      ∧ pushToMainBranch E owner repo branch filePath content commitMessage s =
        (.nil, s5,
          [.call (.GetRef owner repo ("refs/heads/" ++ branch)) none,
           .call (.GetCommit owner repo sha) none,
           .call (.CreateTree owner repo baseSHA
              [{ Path := some filePath, Typ := some "blob", Content := some content,
                 Mode := some "100644" }]) none,
           .call (.CreateCommit owner repo
              (Commit.mk none (some commitMessage) (some tree) [commit])) none,
           .call (.UpdateRef owner repo
              { Ref := ref.Ref, Object := some { Typ := obj.Typ, SHA := commitResponse.SHA } }
              false) none])))
    ∧ (callKinds (pushToMainBranch E owner repo branch filePath content commitMessage s).2.2
        <+: callOrder)
    ∧ (callKinds (pushToMainBranch E owner repo branch filePath content
          commitMessage s).2.2).length
        = (pushToMainBranch E owner repo branch filePath content commitMessage s).2.2.length
    ∧ (∀ e ∈ (pushToMainBranch E owner repo branch filePath content
          commitMessage s).2.2.dropLast, e.succeeded = true)
    ∧ ((∃ e, (pushToMainBranch E owner repo branch filePath content
            commitMessage s).2.2.getLast? = some e ∧ e.failed = true)
        ↔ ∃ err, (pushToMainBranch E owner repo branch filePath content
            commitMessage s).1 = .err err)
    ∧ ((pushToMainBranch E owner repo branch filePath content commitMessage s).1 = .nil
        ↔ (callKinds (pushToMainBranch E owner repo branch filePath content
              commitMessage s).2.2 = callOrder
            ∧ ∀ e ∈ (pushToMainBranch E owner repo branch filePath content
                commitMessage s).2.2, e.succeeded = true)) := by
  refine ⟨?_, ?_⟩
  · unfold pushToMainBranch
    simp only []
    repeat' split
    · exact Or.inl ⟨_, _, ‹_›, rfl⟩
    · exact Or.inr (Or.inl ⟨_, _, ‹_›, Or.inl ‹_›, rfl⟩)
    · exact Or.inr (Or.inl ⟨_, _, ‹_›, Or.inr ⟨_, ‹_›, ‹_›⟩, rfl⟩)
    · exact Or.inr (Or.inr (Or.inl ⟨_, _, _, _, _, _, ‹_›, ‹_›, ‹_›, ‹_›, rfl⟩))
    · exact Or.inr (Or.inr (Or.inr (Or.inl
        ⟨_, _, _, _, _, _, ‹_›, ‹_›, ‹_›, ‹_›, Or.inl ‹_›, rfl⟩)))
    · exact Or.inr (Or.inr (Or.inr (Or.inl
        ⟨_, _, _, _, _, _, ‹_›, ‹_›, ‹_›, ‹_›, Or.inr ⟨_, ‹_›, ‹_›⟩, rfl⟩)))
    · exact Or.inr (Or.inr (Or.inr (Or.inr (Or.inl
        ⟨_, _, _, _, _, _, _, _, _, _, ‹_›, ‹_›, ‹_›, ‹_›, ‹_›, ‹_›, ‹_›, rfl⟩))))
    · exact Or.inr (Or.inr (Or.inr (Or.inr (Or.inr (Or.inl
        ⟨_, _, _, _, _, _, _, _, _, _, _, _, ‹_›, ‹_›, ‹_›, ‹_›, ‹_›, ‹_›, ‹_›, ‹_›, rfl⟩)))))
    · exact Or.inr (Or.inr (Or.inr (Or.inr (Or.inr (Or.inr (Or.inl
        ⟨_, _, _, _, _, _, _, _, _, _, _, _, _, _,
          ‹_›, ‹_›, ‹_›, ‹_›, ‹_›, ‹_›, ‹_›, ‹_›, ‹_›, rfl⟩))))))
    · exact Or.inr (Or.inr (Or.inr (Or.inr (Or.inr (Or.inr (Or.inr
        ⟨_, _, _, _, _, _, _, _, _, _, _, _, _, _,
          ‹_›, ‹_›, ‹_›, ‹_›, ‹_›, ‹_›, ‹_›, ‹_›, ‹_›, rfl⟩))))))
  · unfold pushToMainBranch
    simp only []
    repeat' split
    all_goals simp [callKinds, callOrder, Call.kind, Event.succeeded, Event.failed,
      List.prefix_iff_eq_take]

end Poc
